import Mathlib

/-!
Shallow embedding of the `gfx-memory` allocator hierarchy (gfx-rs/gfx-memory).

Each definition mirrors one Rust item of the repository:
  * `src/lib.rs`    : `MemoryError`, `alignment_shift`, `shift_for_alignment`
  * `src/root.rs`   : `RootAllocator`
  * `src/arena.rs`  : `ArenaNode`, `ArenaAllocator`
  * `src/chunked.rs`: `FreeBlock`, `ChunkedNode`, `ChunkedAllocator`
  * `src/combined.rs`: `CombinedAllocator`, `CombinedTag`
  * `src/smart.rs`  : `Heap`, `GenericSmartAllocator`

Machine integers (`u64`, `usize`) are modelled as `Nat`; the code never relies
on wrap-around in the paths modelled here (where the Rust code would panic on
underflow in debug builds, the relevant theorems carry the hypotheses that rule
the underflow out).  Memory handles (`B::Memory` pointers) are modelled as
`Nat` identifiers handed out by a monotone counter standing for the device.
Fallible Rust functions returning `Result<_, MemoryError>` become
`Except MemoryError _`; `panic!`/`unreachable!` arms of functions whose result
we must observe become `Option.none`.
-/

namespace GfxMem

/-- Mirrors `MemoryError` of `src/lib.rs` (lines 73-79). -/
inductive MemoryError where
  | noCompatibleMemoryType
  | outOfMemory
deriving DecidableEq, Repr

/-- Mirrors `gfx_hal::memory::Requirements`: the `size`/`alignment`/`type_mask`
triple every `alloc` receives. -/
structure Requirements where
  size : Nat
  alignment : Nat
  type_mask : Nat
deriving DecidableEq, Repr

/-- Mirrors `RawBlock` (`TaggedBlock<B, ()>` of `src/block.rs`): a memory
handle plus the byte range `[start, stop)`.  `memory` is the identifier issued
by the device model. -/
structure RawBlock where
  memory : Nat
  start : Nat
  stop : Nat
deriving DecidableEq, Repr

/-- Mirrors `Block::size` of `src/block.rs` (line 19): `range.end - range.start`. -/
def RawBlock.size (b : RawBlock) : Nat := b.stop - b.start

/-- Mirrors `shift_for_alignment` of `src/lib.rs` (lines 236-245):
`((offset-1) | (alignment-1)) + 1` when both are positive, else `offset`. -/
def shift_for_alignment (alignment offset : Nat) : Nat :=
  if 0 < offset ∧ 0 < alignment then ((offset - 1) ||| (alignment - 1)) + 1 else offset

/-- Mirrors `alignment_shift` of `src/lib.rs` (lines 229-234). -/
def alignment_shift (alignment offset : Nat) : Nat :=
  shift_for_alignment alignment offset - offset

/-- Mirrors `RootAllocator` state of `src/root.rs` (lines 16-21): memory type
id and total bytes handed out. -/
structure RootAllocator where
  id : Nat
  used : Nat
deriving DecidableEq, Repr

/-- Device model for `Device::allocate_memory`: given a memory-type id and a
size, either refuse (`none`, the `OutOfMemory` case) or yield a memory handle. -/
def Device : Type := Nat → Nat → Option Nat

/-- Mirrors `RootAllocator::alloc` of `src/root.rs` (lines 56-66): ask the
device for exactly `reqs.size` bytes of the allocator's own type, wrap the
handle in a fresh block spanning `[0, reqs.size)`, add `reqs.size` to `used`. -/
def RootAllocator.alloc (dev : Device) (s : RootAllocator) (reqs : Requirements) :
    Except MemoryError (RootAllocator × RawBlock) :=
  match dev s.id reqs.size with
  | none => .error .outOfMemory
  | some memory => .ok ({ s with used := s.used + reqs.size }, ⟨memory, 0, reqs.size⟩)

/-- Mirrors `RootAllocator::free` of `src/root.rs` (lines 68-74): return the
memory to the device and subtract the block size from `used`. -/
def RootAllocator.free (s : RootAllocator) (b : RawBlock) : RootAllocator :=
  { s with used := s.used - b.size }

/-- Mirrors `RootAllocator::is_used` of `src/root.rs` (line 76-78). -/
def RootAllocator.is_used (s : RootAllocator) : Bool := s.used ≠ 0

/-- Mirrors `RootAllocator::dispose` of `src/root.rs` (lines 80-87): fail with
the unchanged allocator while any byte is outstanding. -/
def RootAllocator.dispose (s : RootAllocator) : Except RootAllocator Unit :=
  if s.is_used then .error s else .ok ()

/-- Mirrors `ArenaNode` of `src/arena.rs` (lines 197-202): bump offset `used`,
credited bytes `freed`, and the chunk `block` obtained from the owner. -/
structure ArenaNode where
  used : Nat
  freed : Nat
  block : RawBlock
deriving DecidableEq, Repr

/-- Mirrors `ArenaNode::is_used` of `src/arena.rs` (lines 242-244). -/
def ArenaNode.is_used (n : ArenaNode) : Bool := n.freed ≠ n.used

/-- Mirrors `ArenaNode::alloc` of `src/arena.rs` (lines 213-230).  Note the
returned block spans `offset..offset + total_size` where `offset` is the
PRE-shift bump position; the alignment shift is only added to the size. -/
def ArenaNode.alloc (n : ArenaNode) (reqs : Requirements) :
    Option (ArenaNode × RawBlock) :=
  let offset := n.block.start + n.used
  let total_size := reqs.size + alignment_shift reqs.alignment offset
  if n.block.size - n.used < total_size then
    none
  else
    some ({ n with used := n.used + total_size },
          ⟨n.block.memory, offset, total_size + offset⟩)

/-- Mirrors `ArenaNode::free` of `src/arena.rs` (lines 232-240): credit the
returned block's size. -/
def ArenaNode.free (n : ArenaNode) (b : RawBlock) : ArenaNode :=
  { n with freed := n.freed + b.size }

/-- Mirrors `ArenaAllocator` state of `src/arena.rs` (lines 24-31).  `nodes`
is the FIFO of retired-but-not-drained nodes, front at the list head. -/
structure ArenaAllocator where
  id : Nat
  chunk_size : Nat
  freed : Nat
  hot : Option ArenaNode
  nodes : List ArenaNode
deriving DecidableEq, Repr

/-- Mirrors `ArenaAllocator::is_used` of `src/arena.rs` (lines 53-59). -/
def ArenaAllocator.is_used (s : ArenaAllocator) : Bool :=
  !s.nodes.isEmpty || (s.hot.map ArenaNode.is_used).getD false

/-- Mirrors `ArenaBlock` of `src/arena.rs` (line 263): a raw block plus the
logical node index used as tag. -/
structure ArenaBlock where
  raw : RawBlock
  tag : Nat
deriving DecidableEq, Repr

/-- Combined state of an `ArenaAllocator` whose owner is a `RootAllocator`
driven by an always-successful device issuing distinct handles from the
counter `next_mem` (the instantiation used by `CombinedAllocator`). -/
structure ArenaWithRoot where
  root : RootAllocator
  arena : ArenaAllocator
  next_mem : Nat
deriving DecidableEq, Repr

/-- Device used by the sub-allocator models: every request succeeds and
returns the next fresh handle `m`. -/
def counterDevice (m : Nat) : Device := fun _ _ => some m

/-- Mirrors `ArenaAllocator::allocate_node` of `src/arena.rs` (lines 107-127):
round the request up to a multiple of `chunk_size` and get a chunk from the
owner (`RootAllocator.alloc` with the counter device, which always succeeds). -/
def ArenaWithRoot.allocate_node (s : ArenaWithRoot) (reqs : Requirements) :
    Except MemoryError (ArenaWithRoot × ArenaNode) :=
  let size := ((reqs.size - 1) / s.arena.chunk_size + 1) * s.arena.chunk_size
  let arena_requirements : Requirements :=
    ⟨size, reqs.alignment, 2 ^ s.arena.id⟩
  match RootAllocator.alloc (counterDevice s.next_mem) s.root arena_requirements with
  | .error e => .error e
  | .ok (root', arena_block) =>
      .ok ({ s with root := root', next_mem := s.next_mem + 1 },
           ⟨0, 0, arena_block⟩)

/-- Mirrors the new-node path of `ArenaAllocator::alloc` of `src/arena.rs`
(lines 157-166): allocate a node, carve the block from it (`unwrap`: always
succeeds because the fresh chunk starts at offset 0 and was sized to fit),
rotate the former hot node (dispose it when drained, else push it to the FIFO
back), and tag with the recomputed `freed + nodes.len()`. -/
def ArenaWithRoot.allocNew (s : ArenaWithRoot) (reqs : Requirements) :
    Except MemoryError (ArenaWithRoot × ArenaBlock) :=
  match s.allocate_node reqs with
  | .error e => .error e
  | .ok (s₁, node) =>
      match node.alloc reqs with
      | none => .error .outOfMemory  -- source: `.unwrap()`, unreachable here
      | some (node', blk) =>
          let s₂ :=
            match s₁.arena.hot with
            | none => { s₁ with arena := { s₁.arena with hot := some node' } }
            | some old_hot =>
                if old_hot.is_used then
                  { s₁ with arena :=
                      { s₁.arena with hot := some node',
                                      nodes := s₁.arena.nodes ++ [old_hot] } }
                else
                  -- `hot.dispose(owner, device)` succeeded: chunk back to root
                  { s₁ with arena := { s₁.arena with hot := some node' },
                            root := s₁.root.free old_hot.block }
          let index := s₂.arena.freed + s₂.arena.nodes.length
          .ok (s₂, ⟨blk, index⟩)

/-- Mirrors `ArenaAllocator::alloc` of `src/arena.rs` (lines 139-167): reject
an excluding type mask, try the hot node with the pre-computed index, fall back
to `allocNew`. -/
def ArenaWithRoot.alloc (s : ArenaWithRoot) (reqs : Requirements) :
    Except MemoryError (ArenaWithRoot × ArenaBlock) :=
  if 2 ^ s.arena.id &&& reqs.type_mask = 0 then
    .error .noCompatibleMemoryType
  else
    let index := s.arena.freed + s.arena.nodes.length
    match s.arena.hot with
    | some hot =>
        match hot.alloc reqs with
        | some (hot', blk) =>
            .ok ({ s with arena := { s.arena with hot := some hot' } }, ⟨blk, index⟩)
        | none => s.allocNew reqs
    | none => s.allocNew reqs

/-- One iteration bound for `cleanup`: each loop iteration removes one
non-used node from the FIFO (nodes pushed back are used), so the entry length
of the FIFO bounds the iteration count.  Mirrors the `while` loop of
`ArenaAllocator::cleanup` of `src/arena.rs` (lines 82-105). -/
def ArenaWithRoot.cleanupGo : Nat → ArenaWithRoot → ArenaWithRoot
  | 0, s => s
  | fuel + 1, s =>
      match s.arena.nodes with
      | [] => s
      | front :: rest =>
          if front.is_used then s
          else
            let s' :=
              match s.arena.hot with
              | some hot =>
                  if hot.is_used then
                    -- `self.nodes.push_back(replace(hot, node))`
                    { s with arena :=
                        { s.arena with hot := some front, nodes := rest ++ [hot] } }
                  else
                    -- `node.dispose(owner, device).unwrap()`: chunk back to root
                    { s with arena := { s.arena with nodes := rest },
                             root := s.root.free front.block }
              | none =>
                  -- source drops the popped node without freeing its chunk
                  { s with arena := { s.arena with nodes := rest } }
            ArenaWithRoot.cleanupGo fuel
              { s' with arena := { s'.arena with freed := s'.arena.freed + 1 } }

/-- Mirrors `ArenaAllocator::cleanup` of `src/arena.rs` (lines 82-105). -/
def ArenaWithRoot.cleanup (s : ArenaWithRoot) : ArenaWithRoot :=
  ArenaWithRoot.cleanupGo s.arena.nodes.length s

/-- Mirrors `ArenaAllocator::free` of `src/arena.rs` (lines 169-183).  The
`unreachable!` arm (tag out of range) and a missing hot node become `none`. -/
def ArenaWithRoot.free (s : ArenaWithRoot) (b : ArenaBlock) :
    Option ArenaWithRoot :=
  let index := b.tag - s.arena.freed
  if s.arena.nodes.length = index then
    match s.arena.hot with
    | some hot =>
        some { s with arena := { s.arena with hot := some (hot.free b.raw) } }
    | none => none  -- source: `self.hot.as_mut().unwrap()` would panic
  else if h : index < s.arena.nodes.length then
    -- `self.nodes[index].free(block); self.cleanup(owner, device);`
    some (ArenaWithRoot.cleanup
      { s with arena :=
          { s.arena with nodes :=
              s.arena.nodes.set index ((s.arena.nodes.get ⟨index, h⟩).free b.raw) } })
  else
    none  -- source: `unreachable!()`

/-- Mirrors `ArenaAllocator::dispose` of `src/arena.rs` (lines 185-194): fail
with the unchanged allocator while used, else return the hot node's chunk (if
any) to the owner. -/
def ArenaWithRoot.dispose (s : ArenaWithRoot) :
    Except ArenaAllocator RootAllocator :=
  if s.arena.is_used then .error s.arena
  else
    match s.arena.hot with
    | some hot => .ok (s.root.free hot.block)
    | none => .ok s.root

/-- Fuelled binary length: `bitLengthAux fuel n` is the number of binary
digits of `n` once `n ≤ fuel`.  It models the Rust expression
`bits - x.leading_zeros()` (with `bits = 64` and `x < 2^64`) used by
`ChunkedAllocator::pick_node`. -/
def bitLengthAux : Nat → Nat → Nat
  | 0, _ => 0
  | fuel + 1, n => if n = 0 then 0 else bitLengthAux fuel (n / 2) + 1

/-- Number of binary digits of `n` (`0` for `n = 0`). -/
def bitLength (n : Nat) : Nat := bitLengthAux n n

/-- Mirrors `FreeBlock` of `src/chunked.rs` (lines 16-21). -/
structure FreeBlock where
  chunk_index : Nat
  block_index : Nat
deriving DecidableEq, Repr

/-- Mirrors `ChunkedNode` of `src/chunked.rs` (lines 23-34): one size class,
with its free list (`VecDeque`, front at the list head) and chunks. -/
structure ChunkedNode where
  id : Nat
  chunk_size : Nat
  block_size : Nat
  free : List FreeBlock
  chunks : List RawBlock
deriving DecidableEq, Repr

/-- Mirrors `ChunkedNode::blocks_per_chunk` of `src/chunked.rs` (lines 57-60). -/
def ChunkedNode.blocks_per_chunk (n : ChunkedNode) : Nat :=
  n.chunk_size / n.block_size

/-- Mirrors `ChunkedNode::count` of `src/chunked.rs` (lines 52-55). -/
def ChunkedNode.count (n : ChunkedNode) : Nat :=
  n.chunks.length * n.blocks_per_chunk

/-- Mirrors `ChunkedNode::is_used` of `src/chunked.rs` (lines 47-50). -/
def ChunkedNode.is_used (n : ChunkedNode) : Bool :=
  n.count ≠ n.free.length

/-- Mirrors `ChunkedBlock` of `src/chunked.rs` (line 363): a raw block tagged
with the index of the chunk it was carved from. -/
structure ChunkedBlock where
  raw : RawBlock
  tag : Nat
deriving DecidableEq, Repr

/-- Mirrors `ChunkedNode::alloc_no_grow` of `src/chunked.rs` (lines 100-118):
pop the front free slot and build the block at
`block_index * block_size + chunk.start`. -/
def ChunkedNode.alloc_no_grow (n : ChunkedNode) :
    Option (ChunkedNode × ChunkedBlock) :=
  match n.free with
  | [] => none
  | fb :: rest =>
      let chunk := n.chunks.getD fb.chunk_index ⟨0, 0, 0⟩
      let offset := fb.block_index * n.block_size + chunk.start
      some ({ n with free := rest },
            ⟨⟨chunk.memory, offset, n.block_size + offset⟩, fb.chunk_index⟩)

/-- State of a chunked sub-allocator whose owner is a `RootAllocator` driven
by the always-successful counter device. -/
structure ChunkedWithRoot where
  root : RootAllocator
  node : ChunkedNode
  next_mem : Nat
deriving DecidableEq, Repr

/-- Mirrors `ChunkedNode::grow` of `src/chunked.rs` (lines 62-98): take one
chunk of `chunk_size` bytes (alignment `block_size`) from the owner, extend the
free list with `blocks_per_chunk` slots of the new chunk, append the chunk. -/
def ChunkedWithRoot.grow (s : ChunkedWithRoot) :
    Except MemoryError ChunkedWithRoot :=
  let reqs : Requirements := ⟨s.node.chunk_size, s.node.block_size, 2 ^ s.node.id⟩
  match RootAllocator.alloc (counterDevice s.next_mem) s.root reqs with
  | .error e => .error e
  | .ok (root', chunk) =>
      let chunk_index := s.node.chunks.length
      .ok { root := root'
            next_mem := s.next_mem + 1
            node := { s.node with
              free := s.node.free ++
                (List.range s.node.blocks_per_chunk).map
                  (fun i => ⟨chunk_index, i⟩)
              chunks := s.node.chunks ++ [chunk] } }

/-- Mirrors `MemorySubAllocator::alloc` for `ChunkedNode` of `src/chunked.rs`
(lines 130-156): check the type mask, try the free list, otherwise grow once. -/
def ChunkedWithRoot.alloc (s : ChunkedWithRoot) (reqs : Requirements) :
    Except MemoryError (ChunkedWithRoot × ChunkedBlock) :=
  if 2 ^ s.node.id &&& reqs.type_mask = 0 then
    .error .noCompatibleMemoryType
  else
    match s.node.alloc_no_grow with
    | some (node', blk) => .ok ({ s with node := node' }, blk)
    | none =>
        match s.grow with
        | .error e => .error e
        | .ok s' =>
            match s'.node.alloc_no_grow with
            | some (node', blk) => .ok ({ s' with node := node' }, blk)
            | none => .error .outOfMemory  -- source: `.expect("Just growed")`

/-- Mirrors `MemorySubAllocator::free` for `ChunkedNode` of `src/chunked.rs`
(lines 158-184): recompute the slot index from the offset and push it onto the
FRONT of the free list. -/
def ChunkedNode.freeBlock (n : ChunkedNode) (b : ChunkedBlock) : ChunkedNode :=
  let chunk := n.chunks.getD b.tag ⟨0, 0, 0⟩
  let block_index := (b.raw.start - chunk.start) / n.block_size
  { n with free := ⟨b.tag, block_index⟩ :: n.free }

/-- Mirrors `ChunkedAllocator` of `src/chunked.rs` (lines 210-217). -/
structure ChunkedAllocator where
  id : Nat
  blocks_per_chunk : Nat
  min_block_size : Nat
  max_chunk_size : Nat
  nodes : List ChunkedNode
deriving DecidableEq, Repr

/-- Mirrors `ChunkedAllocator::is_used` of `src/chunked.rs` (lines 254-256). -/
def ChunkedAllocator.is_used (c : ChunkedAllocator) : Bool :=
  c.nodes.any ChunkedNode.is_used

/-- Mirrors `ChunkedAllocator::block_size` of `src/chunked.rs` (lines 284-286):
`min_block_size * (1 << index)`. -/
def ChunkedAllocator.block_size (c : ChunkedAllocator) (index : Nat) : Nat :=
  c.min_block_size * 2 ^ index

/-- Mirrors `ChunkedAllocator::chunk_size` of `src/chunked.rs` (lines 288-293). -/
def ChunkedAllocator.chunk_size (c : ChunkedAllocator) (index : Nat) : Nat :=
  min (c.block_size index * c.blocks_per_chunk) c.max_chunk_size

/-- Mirrors `ChunkedAllocator::pick_node` of `src/chunked.rs` (lines 295-304):
`bits - ((size - 1) / min_block_size).leading_zeros()`, i.e. the binary length
of `(size - 1) / min_block_size`. -/
def ChunkedAllocator.pick_node (c : ChunkedAllocator) (size : Nat) : Nat :=
  bitLength ((size - 1) / c.min_block_size)

/-- Mirrors `ChunkedAllocator::grow` of `src/chunked.rs` (lines 306-317):
append fresh (empty) nodes for the classes `nodes.len() .. index + 1`. -/
def ChunkedAllocator.grow (c : ChunkedAllocator) (index : Nat) : ChunkedAllocator :=
  let fresh := ((List.range (index + 1)).drop c.nodes.length).map
    (fun i => (⟨c.id, c.chunk_size i, c.block_size i, [], []⟩ : ChunkedNode))
  { c with nodes := c.nodes ++ fresh }

/-- State of a `ChunkedAllocator` whose owner is a `RootAllocator` driven by
the counter device. -/
structure ChunkedAllocWithRoot where
  root : RootAllocator
  chunked : ChunkedAllocator
  next_mem : Nat
deriving DecidableEq, Repr

/-- Mirrors `MemorySubAllocator::alloc` for `ChunkedAllocator` of
`src/chunked.rs` (lines 329-342): reject oversize requests, pick the class for
`max(size, alignment)`, grow the class vector, and delegate to that node. -/
def ChunkedAllocWithRoot.alloc (s : ChunkedAllocWithRoot) (reqs : Requirements) :
    Except MemoryError (ChunkedAllocWithRoot × ChunkedBlock) :=
  if max reqs.size reqs.alignment > s.chunked.max_chunk_size then
    .error .outOfMemory
  else
    let index := s.chunked.pick_node (max reqs.size reqs.alignment)
    let c := s.chunked.grow index
    let node := c.nodes.getD index ⟨c.id, 0, 0, [], []⟩
    match ChunkedWithRoot.alloc ⟨s.root, node, s.next_mem⟩ reqs with
    | .error e => .error e
    | .ok (sub, blk) =>
        .ok ({ root := sub.root
               chunked := { c with nodes := c.nodes.set index sub.node }
               next_mem := sub.next_mem }, blk)

/-- Mirrors `MemorySubAllocator::free` for `ChunkedAllocator` of
`src/chunked.rs` (lines 344-347): re-derive the class from the block size and
push the slot back into that node's free list. -/
def ChunkedAllocWithRoot.free (s : ChunkedAllocWithRoot) (b : ChunkedBlock) :
    ChunkedAllocWithRoot :=
  let index := s.chunked.pick_node b.raw.size
  let node := s.chunked.nodes.getD index ⟨s.chunked.id, 0, 0, [], []⟩
  { s with chunked :=
      { s.chunked with nodes := s.chunked.nodes.set index (node.freeBlock b) } }

/-- Mirrors `MemorySubAllocator::dispose` for `ChunkedAllocator` of
`src/chunked.rs` (lines 349-358) together with the per-node dispose (lines
186-196): fail unchanged while used, else return every chunk to the owner. -/
def ChunkedAllocWithRoot.dispose (s : ChunkedAllocWithRoot) :
    Except ChunkedAllocator RootAllocator :=
  if s.chunked.is_used then .error s.chunked
  else
    .ok ((s.chunked.nodes.flatMap ChunkedNode.chunks).foldl RootAllocator.free s.root)

/-- Mirrors `Type` of `src/combined.rs` (lines 16-22); renamed `AllocKind`
because `Type` is reserved in Lean. -/
inductive AllocKind where
  | shortLived
  | general
deriving DecidableEq, Repr

/-- Mirrors `CombinedTag` of `src/combined.rs` (lines 170-174). -/
inductive CombinedTag where
  | arena (tag : Nat)
  | chunked (tag : Nat)
  | root
deriving DecidableEq, Repr

/-- Mirrors `CombinedBlock` of `src/combined.rs` (line 167). -/
structure CombinedBlock where
  raw : RawBlock
  tag : CombinedTag
deriving DecidableEq, Repr

/-- Mirrors `CombinedAllocator` of `src/combined.rs` (lines 33-42); the extra
`next_mem` field is the fresh-handle counter of the device model. -/
structure CombinedAllocator where
  root : RootAllocator
  root_used : Nat
  arenas : ArenaAllocator
  chunks : ChunkedAllocator
  allocations : Nat
  next_mem : Nat
deriving DecidableEq, Repr

/-- Mirrors `CombinedAllocator::alloc` of `src/combined.rs` (lines 101-127):
`ShortLived` goes to the arena; `General` goes to the root when
`reqs.size > max_chunk_size / 2` and to the chunked allocator otherwise. -/
def CombinedAllocator.alloc (c : CombinedAllocator) (request : AllocKind)
    (reqs : Requirements) : Except MemoryError (CombinedAllocator × CombinedBlock) :=
  match request with
  | .shortLived =>
      match ArenaWithRoot.alloc ⟨c.root, c.arenas, c.next_mem⟩ reqs with
      | .error e => .error e
      | .ok (s, b) =>
          .ok ({ c with root := s.root, arenas := s.arena, next_mem := s.next_mem,
                        allocations := c.allocations + 1 },
               ⟨b.raw, .arena b.tag⟩)
  | .general =>
      if reqs.size > c.chunks.max_chunk_size / 2 then
        match RootAllocator.alloc (counterDevice c.next_mem) c.root reqs with
        | .error e => .error e
        | .ok (root', b) =>
            .ok ({ c with root := root', next_mem := c.next_mem + 1,
                          root_used := c.root_used + b.size,
                          allocations := c.allocations + 1 },
                 ⟨b, .root⟩)
      else
        match ChunkedAllocWithRoot.alloc ⟨c.root, c.chunks, c.next_mem⟩ reqs with
        | .error e => .error e
        | .ok (s, b) =>
            .ok ({ c with root := s.root, chunks := s.chunked, next_mem := s.next_mem,
                          allocations := c.allocations + 1 },
                 ⟨b.raw, .chunked b.tag⟩)

/-- Mirrors `CombinedAllocator::free` of `src/combined.rs` (lines 129-143);
`none` stands for the panic paths inside the arena free. -/
def CombinedAllocator.free (c : CombinedAllocator) (b : CombinedBlock) :
    Option CombinedAllocator :=
  match b.tag with
  | .arena tag =>
      match ArenaWithRoot.free ⟨c.root, c.arenas, c.next_mem⟩ ⟨b.raw, tag⟩ with
      | some s =>
          some { c with root := s.root, arenas := s.arena, next_mem := s.next_mem,
                        allocations := c.allocations - 1 }
      | none => none
  | .chunked tag =>
      let s := ChunkedAllocWithRoot.free ⟨c.root, c.chunks, c.next_mem⟩ ⟨b.raw, tag⟩
      some { c with root := s.root, chunks := s.chunked, next_mem := s.next_mem,
                    allocations := c.allocations - 1 }
  | .root =>
      some { c with root_used := c.root_used - b.raw.size,
                    root := c.root.free b.raw,
                    allocations := c.allocations - 1 }

/-- Mirrors `CombinedAllocator::is_used` of `src/combined.rs` (lines 145-152). -/
def CombinedAllocator.is_used (c : CombinedAllocator) : Bool :=
  c.allocations ≠ 0

/-- Mirrors `CombinedAllocator::dispose` of `src/combined.rs` (lines 154-162):
fail with the unchanged allocator while used; otherwise tear down the arena,
the chunked allocator and the root; `none` stands for the `.unwrap()` panics
when a sub-teardown fails (unreachable from states reached through the API). -/
def CombinedAllocator.dispose (c : CombinedAllocator) :
    Option (Except CombinedAllocator Unit) :=
  if c.is_used then some (.error c)
  else
    match ArenaWithRoot.dispose ⟨c.root, c.arenas, c.next_mem⟩ with
    | .error _ => none
    | .ok root₁ =>
        match ChunkedAllocWithRoot.dispose ⟨root₁, c.chunks, c.next_mem⟩ with
        | .error _ => none
        | .ok root₂ =>
            match root₂.dispose with
            | .error _ => none
            | .ok _ => some (.ok ())

/-- Mirrors `gfx_hal::MemoryType` as used by `src/smart.rs`: a property
bit-set and the owning heap index. -/
structure MemoryType where
  properties : Nat
  heap_index : Nat
deriving DecidableEq, Repr

/-- Mirrors `Heap` of `src/smart.rs` (lines 145-149). -/
structure Heap where
  size : Nat
  used : Nat
deriving DecidableEq, Repr

/-- Mirrors `Heap::available` of `src/smart.rs` (lines 152-154). -/
def Heap.available (h : Heap) : Nat := h.size - h.used

/-- Mirrors `Heap::alloc` of `src/smart.rs` (lines 156-158). -/
def Heap.alloc (h : Heap) (size : Nat) : Heap := { h with used := h.used + size }

/-- Mirrors `Heap::free` of `src/smart.rs` (lines 160-162). -/
def Heap.free (h : Heap) (size : Nat) : Heap := { h with used := h.used - size }

/-- Floor of the base-2 logarithm of the positive fraction `a / b`
(`a, b ≥ 1`), computed from the binary lengths of numerator and denominator. -/
def floorLog2Rat (a b : Nat) : Int :=
  let la : Int := bitLength a
  let lb : Int := bitLength b
  if lb ≤ la then
    (if b * 2 ^ (la - lb).toNat ≤ a then la - lb else la - lb - 1)
  else
    (if b ≤ a * 2 ^ (lb - la).toNat then la - lb else la - lb - 1)

/-- Rounds `n / d` to the nearest integer, ties to the even neighbour (the
IEEE-754 default rounding). -/
def roundHalfEven (n d : Nat) : Nat :=
  let q := n / d
  let r := n % d
  if 2 * r < d then q
  else if d < 2 * r then q + 1
  else if q % 2 = 0 then q else q + 1

/-- Denotation of rounding a non-negative rational to IEEE-754 binary32
(`f32`): round to nearest, ties to even, at 24 significant bits.  The values
arising from `u64` heap counters stay far inside binary32's normal exponent
range, so overflow and subnormals need no cases; comparisons of finite floats
coincide with comparisons of the exact rationals returned here. -/
def roundF32 (q : ℚ) : ℚ :=
  if q ≤ 0 then 0
  else
    let a := q.num.toNat
    let b := q.den
    let e := floorLog2Rat a b
    let m : Nat :=
      if 0 ≤ 23 - e then roundHalfEven (a * 2 ^ (23 - e).toNat) b
      else roundHalfEven a (b * 2 ^ (e - 23).toNat)
    (m : ℚ) * (2 : ℚ) ^ (e - 23)

/-- Mirrors `Heap::usage` of `src/smart.rs` (lines 164-166):
`used as f32 / size as f32`.  Both `u64 → f32` conversions and the division
are correctly rounded to binary32 precision via `roundF32`.  A zero `size`
(real `f32`: infinity or NaN) is modelled as 0; the selection loop only
evaluates `usage` for availability survivors, whose heaps have positive free
space. -/
def Heap.usage (h : Heap) : ℚ :=
  roundF32 (roundF32 (h.used : ℚ) / roundF32 (h.size : ℚ))

/-- Mirrors `GenericSmartAllocator` of `src/smart.rs` (lines 16-20), generic
over the per-type backing allocator `A` exactly as the source is. -/
structure GenericSmartAllocator (A : Type) where
  allocators : List (MemoryType × A)
  heaps : List Heap
deriving Repr

/-- Bit test of the selection loop of `GenericSmartAllocator::alloc`
(`src/smart.rs` line 81): the request's type mask covers index `k`. -/
def maskCovers (type_mask k : Nat) : Bool :=
  2 ^ k &&& type_mask = 2 ^ k

/-- Mirrors `Properties::contains` (`src/smart.rs` line 82): every bit of
`prop` is present in `properties`. -/
def propContains (properties prop : Nat) : Bool :=
  properties &&& prop = prop

/-- Memory type stored at index `k` (first component of `allocators[k]`). -/
def typeAt {A : Type} [Inhabited A] (s : GenericSmartAllocator A) (k : Nat) :
    MemoryType :=
  (s.allocators.getD k ⟨⟨0, 0⟩, default⟩).1

/-- Heap backing memory type `k`. -/
def heapAt {A : Type} [Inhabited A] (s : GenericSmartAllocator A) (k : Nat) : Heap :=
  s.heaps.getD (typeAt s k).heap_index ⟨0, 0⟩

/-- Fractional usage of the heap backing memory type `k`, as compared by the
selection loop. -/
def usageAt {A : Type} [Inhabited A] (s : GenericSmartAllocator A) (k : Nat) : ℚ :=
  (heapAt s k).usage

/-- First filter of the selection loop (`src/smart.rs` lines 81-83): the mask
covers index `k` and the type's properties contain the required ones. -/
def compatibleB {A : Type} [Inhabited A] (s : GenericSmartAllocator A)
    (prop : Nat) (reqs : Requirements) (k : Nat) : Bool :=
  maskCovers reqs.type_mask k && propContains (typeAt s k).properties prop

/-- Second filter of the selection loop (`src/smart.rs` lines 87-90): the
type is compatible and its heap has `size + alignment` bytes available. -/
def survivorB {A : Type} [Inhabited A] (s : GenericSmartAllocator A)
    (prop : Nat) (reqs : Requirements) (k : Nat) : Bool :=
  compatibleB s prop reqs k &&
    decide (reqs.size + reqs.alignment ≤ (heapAt s k).available)

/-- Candidate update performed for each survivor of the selection loop
(`src/smart.rs` lines 92-100): replace the candidate only on strictly smaller
usage. -/
def scanStep {A : Type} [Inhabited A] (s : GenericSmartAllocator A)
    (candidate : Option (Nat × ℚ)) (k : Nat) : Option (Nat × ℚ) :=
  match candidate with
  | some (c, u) => if u > usageAt s k then some (k, usageAt s k) else some (c, u)
  | none => some (k, usageAt s k)

/-- Mirrors the loop body of `GenericSmartAllocator::alloc` of `src/smart.rs`
(lines 78-101), processing the memory-type indices of `l` in order while
threading the `compatible` flag and the current `candidate`. -/
def smartScanAux {A : Type} [Inhabited A] (s : GenericSmartAllocator A) (prop : Nat)
    (reqs : Requirements) :
    List Nat → Bool → Option (Nat × ℚ) → Bool × Option (Nat × ℚ)
  | [], compatible, candidate => (compatible, candidate)
  | index :: rest, compatible, candidate =>
      if compatibleB s prop reqs index then
        if (heapAt s index).available < reqs.size + reqs.alignment then
          smartScanAux s prop reqs rest true candidate
        else
          smartScanAux s prop reqs rest true (scanStep s candidate index)
      else
        smartScanAux s prop reqs rest compatible candidate

/-- Selection scan over all memory-type indices, as run by
`GenericSmartAllocator::alloc` (`src/smart.rs` lines 74-101). -/
def smartScan {A : Type} [Inhabited A] (s : GenericSmartAllocator A) (prop : Nat)
    (reqs : Requirements) : Bool × Option (Nat × ℚ) :=
  smartScanAux s prop reqs (List.range s.allocators.length) false none

/-- Delegation step of `GenericSmartAllocator::alloc` (`src/smart.rs` lines
103-109): allocate from the chosen backing allocator (`allocA`, returning its
new state and the block size), credit the chosen type's heap by the block
size, and tag the result with the chosen index. -/
def smartDelegate {A : Type} [Inhabited A] (s : GenericSmartAllocator A)
    (allocA : A → Requirements → Except MemoryError (A × Nat))
    (chosen : Nat) (reqs : Requirements) :
    Except MemoryError (GenericSmartAllocator A × Nat × Nat) :=
  let entry := s.allocators.getD chosen ⟨⟨0, 0⟩, default⟩
  match allocA entry.2 reqs with
  | .error e => .error e
  | .ok (a', bsize) =>
      .ok ({ allocators := s.allocators.set chosen (entry.1, a')
             heaps := s.heaps.set entry.1.heap_index
               ((s.heaps.getD entry.1.heap_index ⟨0, 0⟩).alloc bsize) },
           chosen, bsize)

/-- Mirrors `GenericSmartAllocator::alloc` of `src/smart.rs` (lines 68-119). -/
def GenericSmartAllocator.alloc {A : Type} [Inhabited A] (s : GenericSmartAllocator A)
    (allocA : A → Requirements → Except MemoryError (A × Nat))
    (prop : Nat) (reqs : Requirements) :
    Except MemoryError (GenericSmartAllocator A × Nat × Nat) :=
  match (smartScan s prop reqs).2 with
  | some (chosen, _) => smartDelegate s allocA chosen reqs
  | none =>
      .error (if ¬ (smartScan s prop reqs).1 then .noCompatibleMemoryType
        else .outOfMemory)

/-- Mirrors `GenericSmartAllocator::free` of `src/smart.rs` (lines 121-125):
untag, debit the heap by the block size, delegate the free. -/
def GenericSmartAllocator.free {A : Type} [Inhabited A] (s : GenericSmartAllocator A)
    (freeA : A → Nat → A) (index bsize : Nat) : GenericSmartAllocator A :=
  let entry := s.allocators.getD index ⟨⟨0, 0⟩, default⟩
  { allocators := s.allocators.set index (entry.1, freeA entry.2 bsize)
    heaps := s.heaps.set entry.1.heap_index
      ((s.heaps.getD entry.1.heap_index ⟨0, 0⟩).free bsize) }

/-- Mirrors `GenericSmartAllocator::is_used` of `src/smart.rs` (lines 127-131). -/
def GenericSmartAllocator.is_used {A : Type} (s : GenericSmartAllocator A)
    (isUsedA : A → Bool) : Bool :=
  s.allocators.any fun e => isUsedA e.2

/-- Mirrors `GenericSmartAllocator::dispose` of `src/smart.rs` (lines
133-142): fail with the unchanged allocator while used; else dispose each
backing allocator, `none` standing for the `.unwrap()` panic when one fails. -/
def GenericSmartAllocator.dispose {A : Type} (s : GenericSmartAllocator A)
    (isUsedA : A → Bool) (disposeOkA : A → Bool) :
    Option (Except (GenericSmartAllocator A) Unit) :=
  if s.is_used isUsedA then some (.error s)
  else if s.allocators.all (fun e => disposeOkA e.2) then some (.ok ())
  else none

/-- Mirrors `GenericSmartAllocator::new` of `src/smart.rs` (lines 34-52):
pair each memory type with a fresh backing allocator and start every heap at
`used = 0`. -/
def GenericSmartAllocator.new {A : Type} (memory_types : List MemoryType)
    (memory_heaps : List Nat) (new_allocator : Nat → A) :
    GenericSmartAllocator A :=
  { allocators := memory_types.enum.map fun e => (e.2, new_allocator e.1)
    heaps := memory_heaps.map fun size => ⟨size, 0⟩ }

/-- Runs `n` allocations with identical requirements, collecting the returned
blocks in allocation order. -/
def ArenaWithRoot.allocMany (s : ArenaWithRoot) (reqs : Requirements) :
    Nat → Except MemoryError (ArenaWithRoot × List ArenaBlock)
  | 0 => .ok (s, [])
  | n + 1 =>
      match s.allocMany reqs n with
      | .error e => .error e
      | .ok (s', bs) =>
          match s'.alloc reqs with
          | .error e => .error e
          | .ok (s'', b) => .ok (s'', bs ++ [b])

/-- Frees the given blocks in list order. -/
def ArenaWithRoot.freeSeq (s : ArenaWithRoot) : List ArenaBlock → Option ArenaWithRoot
  | [] => some s
  | b :: rest =>
      match s.free b with
      | none => none
      | some s' => ArenaWithRoot.freeSeq s' rest

/-- Fresh arena over a fresh root: memory type 0, `chunk_size` 256, device
handles issued from 1. -/
def arenaDemo : ArenaWithRoot := ⟨⟨0, 0⟩, ⟨0, 256, 0, none, []⟩, 1⟩

/-- Scenario of spec §8: eight 64-byte allocations A..H from `arenaDemo`. -/
def arenaScenario : Except MemoryError (ArenaWithRoot × List ArenaBlock) :=
  arenaDemo.allocMany ⟨64, 1, 1⟩ 8

/-- State of the arena scenario after freeing the first `k` blocks in
allocation order. -/
def arenaScenarioAfter (k : Nat) : Option ArenaWithRoot :=
  match arenaScenario with
  | .error _ => none
  | .ok (s, bs) => s.freeSeq (bs.take k)

/-- Fresh combined allocator: memory type 0, arena chunks of 256 bytes,
chunked configuration `blocks_per_chunk = 8`, `min_block_size = 16`,
`max_chunk_size = 4096`. -/
def combinedDemo : CombinedAllocator :=
  ⟨⟨0, 0⟩, 0, ⟨0, 256, 0, none, []⟩, ⟨0, 8, 16, 4096, []⟩, 0, 1⟩

/-- Fresh chunked allocator over a fresh root with the spec §8 scenario-3
configuration (`min_block_size` 16, `max_chunk_size` 4096, 8 blocks per
chunk). -/
def chunkedDemo : ChunkedAllocWithRoot := ⟨⟨0, 0⟩, ⟨0, 8, 16, 4096, []⟩, 1⟩

instance : Inhabited CombinedAllocator := ⟨combinedDemo⟩

/-- Backing delegation used by the heap-accounting counterexample: a smart
allocator whose single memory type is served by `combinedDemo` with a
`General` request; the delegate reports the combined allocator's new state and
the size of the block it actually produced. -/
def combinedDelegate (c : CombinedAllocator) (reqs : Requirements) :
    Except MemoryError (CombinedAllocator × Nat) :=
  match c.alloc .general reqs with
  | .error e => .error e
  | .ok (c', b) => .ok (c', b.raw.size)

/-- Smart allocator with one memory type (properties 0, heap 0) backed by
`combinedDemo`, over a single 40-byte heap. -/
def smartDemo : GenericSmartAllocator CombinedAllocator :=
  ⟨[(⟨0, 0⟩, combinedDemo)], [⟨40, 0⟩]⟩

/-- Smart allocator with two memory types on two 100-byte heaps, the first
half used and the second lightly used. -/
def smartTwoDemo : GenericSmartAllocator CombinedAllocator :=
  ⟨[(⟨0, 0⟩, combinedDemo), (⟨0, 1⟩, combinedDemo)], [⟨100, 50⟩, ⟨100, 10⟩]⟩

/-- Smart allocator with two memory types on two 32 MiB heaps whose usage
counters differ by one byte around 2^24: both ratios round to the same `f32`
value 1/2 although the exact ratios differ. -/
def smartCollisionDemo : GenericSmartAllocator CombinedAllocator :=
  ⟨[(⟨0, 0⟩, combinedDemo), (⟨0, 1⟩, combinedDemo)],
   [⟨33554432, 16777217⟩, ⟨33554432, 16777216⟩]⟩

/-- C1: the spec claims that for every successful `alloc(reqs)` on any
allocator of the hierarchy the returned block satisfies
`start % reqs.alignment == 0` and `size ≥ reqs.size`.  The arena allocator
violates the alignment part: from a fresh arena (`chunk_size` 256),
`alloc(size 1, align 1)` followed by `alloc(size 4, align 4)` succeeds and
returns a block whose start is the un-shifted bump offset 1, and `1 % 4 ≠ 0`
(`ArenaNode::alloc` computes the alignment shift but only adds it to the
size, returning `offset..total_size + offset`).  The size part does hold
(`4 ≤ 7` here). -/
theorem arena_returns_unaligned_block :
    ∃ s₁ b₁ s₂ b₂,
      arenaDemo.alloc ⟨1, 1, 1⟩ = .ok (s₁, b₁) ∧
      s₁.alloc ⟨4, 4, 1⟩ = .ok (s₂, b₂) ∧
      b₂.raw.start = 1 ∧ ¬ b₂.raw.start % 4 = 0 ∧ 4 ≤ b₂.raw.size := by
  refine ⟨_, _, _, _, rfl, rfl, rfl, by decide, by decide⟩

/-- C2 counterexample: the claim says a `General` request with
`reqs.size ≤ max_chunk_size` is served by the chunked sub-allocator, but the
code routes `General` requests to the root as soon as
`reqs.size > max_chunk_size / 2`: with `max_chunk_size = 4096`, a `General`
request of size 3000 (≤ 4096) comes back tagged `Root`, not `Chunked`. -/
theorem combined_threshold_counterexample :
    3000 ≤ combinedDemo.chunks.max_chunk_size ∧
    ∃ c b, combinedDemo.alloc .general ⟨3000, 1, 1⟩ = .ok (c, b) ∧
      b.tag = .root := by
  exact ⟨by decide, _, _, rfl, rfl⟩

/-- C3 counterexample: in the spec §8 scenario (chunk_size 256, eight 64-byte
blocks A..H allocated then freed in order) the claim predicts one chunk back
at the root after freeing A..D and all chunks back after freeing H.  In fact
two 256-byte chunks are taken from the root (`used = 512`), after the first
four frees the root still holds 512 outstanding bytes (no chunk was returned:
cleanup recycled the drained chunk as the hot node), and after all eight
frees 256 bytes are still outstanding (the drained hot chunk is only returned
by `dispose`). -/
theorem arena_reclamation_counterexample :
    (arenaScenario.toOption.map fun p => p.1.root.used) = some 512 ∧
    ((arenaScenarioAfter 4).map fun s => s.root.used) = some 512 ∧
    ((arenaScenarioAfter 8).map fun s => s.root.used) = some 256 := by
  refine ⟨by decide, by decide, by decide⟩

/-- C3 amended: when a free drains the node at the front of the FIFO, cleanup
pops it and, if the hot node is also drained, disposes the popped node;
otherwise the popped (drained) node becomes the new hot node and the former
hot node is pushed to the FIFO back, so no chunk is returned at that point.
In the concrete scenario: after freeing A..D the front chunk was popped
(`freed = 1`), the drained chunk is retained as the (unused) hot node, the
still-active chunk sits in the FIFO, and the root got nothing back
(`used = 512`); after freeing H one chunk has been returned (`used = 256`),
`is_used()` is `false`, and disposing the arena returns the last chunk
(root `used = 0`). -/
theorem arena_reclamation_amended :
    ((arenaScenarioAfter 4).map fun s =>
        (s.root.used, s.arena.freed, s.arena.nodes.length,
         (s.arena.hot.map ArenaNode.is_used).getD true, s.arena.is_used))
      = some (512, 1, 1, false, true) ∧
    ((arenaScenarioAfter 8).map fun s =>
        (s.root.used, s.arena.freed, s.arena.nodes.length, s.arena.is_used))
      = some (256, 2, 0, false) ∧
    ((arenaScenarioAfter 8).map fun s =>
        (ArenaWithRoot.dispose s).toOption.map RootAllocator.used)
      = some (some 0) := by
  refine ⟨by decide, by decide, by decide⟩

/-- C8 counterexample: tag values ARE reused across the allocator's lifetime.
Allocate a chunk-filling block (tag 0), free it, allocate again: the former
hot node is drained, so the rotation disposes it without incrementing
`freed`, and the brand-new node is assigned the same logical index 0.  The
two blocks come from distinct nodes (distinct chunk memory handles 1 and 2)
yet carry the same tag. -/
theorem arena_tag_reuse :
    ∃ s₁ b₁ s₂ s₃ b₃,
      arenaDemo.alloc ⟨256, 1, 1⟩ = .ok (s₁, b₁) ∧
      s₁.free b₁ = some s₂ ∧
      s₂.alloc ⟨256, 1, 1⟩ = .ok (s₃, b₃) ∧
      b₁.tag = b₃.tag ∧ ¬ b₁.raw.memory = b₃.raw.memory := by
  refine ⟨_, _, _, _, _, rfl, rfl, rfl, rfl, by decide⟩

/-- C10: `RootAllocator::alloc` never inspects `reqs.type_mask` or
`reqs.alignment` (the result only depends on `reqs.size`); it asks the device
for exactly `reqs.size` bytes of its own memory type; on success the block
spans `[0, reqs.size)` (hence trivially `start % alignment = 0`) and `used`
grows by `reqs.size`; its only possible failure is `OutOfMemory`, propagated
from the device, never `NoCompatibleMemoryType`. -/
theorem root_alloc_spec (dev : Device) (s : RootAllocator) (reqs : Requirements) :
    (∀ a m, RootAllocator.alloc dev s ⟨reqs.size, a, m⟩ =
        RootAllocator.alloc dev s reqs) ∧
    (∀ e, RootAllocator.alloc dev s reqs = .error e →
        e = .outOfMemory ∧ dev s.id reqs.size = none) ∧
    (∀ s' b, RootAllocator.alloc dev s reqs = .ok (s', b) →
        dev s.id reqs.size = some b.memory ∧ b.start = 0 ∧ b.stop = reqs.size ∧
        b.size = reqs.size ∧ b.start % reqs.alignment = 0 ∧
        s'.used = s.used + reqs.size ∧ s'.id = s.id) := by
  refine ⟨fun a m => rfl, ?_, ?_⟩
  · intro e h
    unfold RootAllocator.alloc at h
    cases hd : dev s.id reqs.size <;> rw [hd] at h <;> simp_all
  · intro s' b h
    unfold RootAllocator.alloc at h
    cases hd : dev s.id reqs.size <;> rw [hd] at h
    · simp_all
    · simp only [Except.ok.injEq, Prod.mk.injEq] at h
      obtain ⟨hs, hb⟩ := h
      subst hs; subst hb
      simp [RawBlock.size]

/-- Closed instance of the root-allocator specification at a concrete device
and request, discharging the equation hypotheses. -/
theorem root_alloc_spec_witness :
    (fun _ _ => some 7 : Device) 3 64 = some 7 ∧ (0 : Nat) = 0 ∧
      (64 : Nat) = 64 ∧ (64 : Nat) = 64 ∧ (0 : Nat) % 2 = 0 ∧
      (5 + 64 : Nat) = 5 + 64 ∧ (3 : Nat) = 3 :=
  (root_alloc_spec (fun _ _ => some 7) ⟨3, 5⟩ ⟨64, 2, 1⟩).2.2
    ⟨3, 5 + 64⟩ ⟨7, 0, 64⟩ rfl

/-- C2 amended: `CombinedAllocator::alloc` routes `ShortLived` requests to
the arena and `General` requests to the chunked sub-allocator exactly when
`reqs.size ≤ max_chunk_size / 2`; a `General` request with
`reqs.size > max_chunk_size / 2` goes to the root directly, so the routing
threshold is HALF the chunked sub-allocator's `max_chunk_size`. -/
theorem combined_routing (c : CombinedAllocator) (reqs : Requirements) :
    (∀ c' b, c.alloc .shortLived reqs = .ok (c', b) → ∃ t, b.tag = .arena t) ∧
    (reqs.size ≤ c.chunks.max_chunk_size / 2 →
      ∀ c' b, c.alloc .general reqs = .ok (c', b) → ∃ t, b.tag = .chunked t) ∧
    (c.chunks.max_chunk_size / 2 < reqs.size →
      ∀ c' b, c.alloc .general reqs = .ok (c', b) → b.tag = .root) := by
  refine ⟨?_, ?_, ?_⟩
  · intro c' b h
    unfold CombinedAllocator.alloc at h
    cases ha : ArenaWithRoot.alloc ⟨c.root, c.arenas, c.next_mem⟩ reqs <;>
      rw [ha] at h
    · simp_all
    · simp only [Except.ok.injEq, Prod.mk.injEq] at h
      obtain ⟨-, hb⟩ := h
      subst hb
      exact ⟨_, rfl⟩
  · intro hle c' b h
    unfold CombinedAllocator.alloc at h
    rw [if_neg (by omega)] at h
    cases ha : ChunkedAllocWithRoot.alloc ⟨c.root, c.chunks, c.next_mem⟩ reqs <;>
      rw [ha] at h
    · simp_all
    · simp only [Except.ok.injEq, Prod.mk.injEq] at h
      obtain ⟨-, hb⟩ := h
      subst hb
      exact ⟨_, rfl⟩
  · intro hgt c' b h
    unfold CombinedAllocator.alloc at h
    rw [if_pos (by omega)] at h
    cases ha : RootAllocator.alloc (counterDevice c.next_mem) c.root reqs <;>
      rw [ha] at h
    · simp_all
    · simp only [Except.ok.injEq, Prod.mk.injEq] at h
      obtain ⟨-, hb⟩ := h
      subst hb
      rfl

/-- Closed instance of the amended routing at the counterexample input: the
3000-byte `General` request (above half of 4096) is served by the root. -/
theorem combined_routing_witness :
    CombinedBlock.tag ⟨⟨1, 0, 3000⟩, .root⟩ = .root :=
  (combined_routing combinedDemo ⟨3000, 1, 1⟩).2.2 (by decide)
    { combinedDemo with root := ⟨0, 3000⟩, root_used := 3000,
                        allocations := 1, next_mem := 2 }
    ⟨⟨1, 0, 3000⟩, .root⟩ rfl

/-- Tag of the new-node path of `ArenaAllocator::alloc`: the block is stamped
with `freed + nodes.len()` of the post-rotation state. -/
theorem allocNew_tag (s : ArenaWithRoot) (reqs : Requirements)
    (s' : ArenaWithRoot) (b : ArenaBlock) (h : s.allocNew reqs = .ok (s', b)) :
    b.tag = s'.arena.freed + s'.arena.nodes.length := by
  unfold ArenaWithRoot.allocNew at h
  cases hn : s.allocate_node reqs <;> rw [hn] at h
  · simp_all
  case ok p =>
    obtain ⟨s₁, node⟩ := p
    dsimp only at h
    cases ha : node.alloc reqs <;> rw [ha] at h
    · simp_all
    case some q =>
      obtain ⟨node', blk⟩ := q
      dsimp only at h
      cases hh : s₁.arena.hot <;> rw [hh] at h
      · simp only [Except.ok.injEq, Prod.mk.injEq] at h
        obtain ⟨hs, hb⟩ := h
        subst hs; subst hb
        rfl
      case some old_hot =>
        dsimp only at h
        by_cases hu : old_hot.is_used = true
        · rw [if_pos hu] at h
          simp only [Except.ok.injEq, Prod.mk.injEq] at h
          obtain ⟨hs, hb⟩ := h
          subst hs; subst hb
          rfl
        · rw [if_neg hu] at h
          simp only [Except.ok.injEq, Prod.mk.injEq] at h
          obtain ⟨hs, hb⟩ := h
          subst hs; subst hb
          rfl

/-- C8 amended: `freed + nodes.len()` is the logical index stamped on every
block returned by `alloc` (equivalently, the index of the hot node after the
call), but tag values CAN be reused across the allocator's lifetime: when the
hot node is already drained at rotation time it is disposed without
incrementing `freed`, and the replacement node receives the same index (see
the tag-reuse counterexample). -/
theorem arena_tag_is_next_index (s : ArenaWithRoot) (reqs : Requirements)
    (s' : ArenaWithRoot) (b : ArenaBlock) (h : s.alloc reqs = .ok (s', b)) :
    b.tag = s'.arena.freed + s'.arena.nodes.length := by
  unfold ArenaWithRoot.alloc at h
  by_cases hm : 2 ^ s.arena.id &&& reqs.type_mask = 0
  · rw [if_pos hm] at h; simp_all
  · rw [if_neg hm] at h
    cases hh : s.arena.hot <;> rw [hh] at h
    · exact allocNew_tag s reqs s' b h
    · next hot =>
      dsimp only at h
      cases ha : hot.alloc reqs <;> rw [ha] at h
      · exact allocNew_tag s reqs s' b h
      · next q =>
        obtain ⟨hot', blk⟩ := q
        dsimp only at h
        simp only [Except.ok.injEq, Prod.mk.injEq] at h
        obtain ⟨hs, hb⟩ := h
        subst hs; subst hb
        rfl

/-- Closed instance of the tag invariant: the first allocation from the fresh
demo arena is tagged `0 = freed + nodes.len()` of the resulting state. -/
theorem arena_tag_is_next_index_witness :
    ArenaBlock.tag ⟨⟨1, 0, 1⟩, 0⟩ =
      ArenaAllocator.freed ⟨0, 256, 0, some ⟨1, 0, ⟨1, 0, 256⟩⟩, []⟩ +
        List.length ([] : List ArenaNode) :=
  arena_tag_is_next_index arenaDemo ⟨1, 1, 1⟩
    ⟨⟨0, 256⟩, ⟨0, 256, 0, some ⟨1, 0, ⟨1, 0, 256⟩⟩, []⟩, 2⟩ ⟨⟨1, 0, 1⟩, 0⟩ rfl

/-- Characterisation of the fuelled binary length: once the fuel dominates
the argument, `bitLengthAux fuel n ≤ i` exactly when `n < 2 ^ i`. -/
theorem bitLengthAux_le_iff (fuel : Nat) :
    ∀ n i : Nat, n ≤ fuel → (bitLengthAux fuel n ≤ i ↔ n < 2 ^ i) := by
  induction fuel with
  | zero =>
      intro n i hn
      have : n = 0 := Nat.le_zero.mp hn
      subst this
      simp [bitLengthAux, Nat.pos_pow_of_pos i two_pos]
  | succ fuel ih =>
      intro n i hn
      unfold bitLengthAux
      by_cases hz : n = 0
      · subst hz
        simp [Nat.pos_pow_of_pos i two_pos]
      · rw [if_neg hz]
        cases i with
        | zero => simp; omega
        | succ j =>
            rw [Nat.succ_le_succ_iff, ih (n / 2) j (by omega),
              Nat.div_lt_iff_lt_mul two_pos, pow_succ]

/-- Binary-length bound: `bitLength n ≤ i ↔ n < 2 ^ i`. -/
theorem bitLength_le_iff (n i : Nat) : bitLength n ≤ i ↔ n < 2 ^ i :=
  bitLengthAux_le_iff n n i le_rfl

/-- With a power-of-two `min_block_size`, `pick_node m` is the least size
class whose `block_size` reaches `m`. -/
theorem pick_node_isLeast (c : ChunkedAllocator) (a m : Nat)
    (hmin : c.min_block_size = 2 ^ a) (hm : 0 < m) :
    IsLeast {i | m ≤ c.block_size i} (c.pick_node m) := by
  have key : ∀ i, c.pick_node m ≤ i ↔ m ≤ c.block_size i := by
    intro i
    unfold ChunkedAllocator.pick_node ChunkedAllocator.block_size
    rw [bitLength_le_iff, hmin, Nat.div_lt_iff_lt_mul (pow_pos two_pos a),
      mul_comm (2 ^ i) (2 ^ a)]
    omega
  exact ⟨(key _).mp le_rfl, fun i hi => (key i).mpr hi⟩

/-- C6: for `0 < size ≤ max_chunk_size` and `align ≤ max_chunk_size` the
chunked allocator's class choice `pick_node (max size align)` is the least
class whose `block_size = min_block_size * 2 ^ i` meets both the size and the
alignment constraint; a request with `max(size, align) > max_chunk_size`
yields `OutOfMemory`.  With `min_block_size = 16`, `max_chunk_size = 4096`:
size 17 with align 1 lands in class 1 (block size 32), size 1 with align 64
lands in class 2 (block size 64), size 8192 yields `OutOfMemory`. -/
theorem chunked_class_selection :
    (∀ (c : ChunkedAllocator) (a : Nat) (reqs : Requirements),
        c.min_block_size = 2 ^ a → 0 < reqs.size →
        reqs.size ≤ c.max_chunk_size → reqs.alignment ≤ c.max_chunk_size →
        IsLeast {i | reqs.size ≤ c.block_size i ∧ reqs.alignment ≤ c.block_size i}
          (c.pick_node (max reqs.size reqs.alignment))) ∧
    (∀ (s : ChunkedAllocWithRoot) (reqs : Requirements),
        s.chunked.max_chunk_size < max reqs.size reqs.alignment →
        s.alloc reqs = .error .outOfMemory) ∧
    chunkedDemo.chunked.pick_node (max 17 1) = 1 ∧
    chunkedDemo.chunked.block_size 1 = 32 ∧
    (∃ s b, chunkedDemo.alloc ⟨17, 1, 1⟩ = .ok (s, b) ∧ b.raw.size = 32) ∧
    chunkedDemo.chunked.pick_node (max 1 64) = 2 ∧
    chunkedDemo.chunked.block_size 2 = 64 ∧
    (∃ s b, chunkedDemo.alloc ⟨1, 64, 1⟩ = .ok (s, b) ∧ b.raw.size = 64) ∧
    chunkedDemo.alloc ⟨8192, 1, 1⟩ = .error .outOfMemory := by
  refine ⟨?_, ?_, by decide, by decide, ⟨_, _, rfl, by decide⟩, by decide, by decide,
    ⟨_, _, rfl, by decide⟩, rfl⟩
  · intro c a reqs hmin hpos _ _
    have hm : 0 < max reqs.size reqs.alignment := lt_of_lt_of_le hpos (le_max_left _ _)
    obtain ⟨hmem, hlb⟩ := pick_node_isLeast c a (max reqs.size reqs.alignment) hmin hm
    refine ⟨max_le_iff.mp hmem, fun i hi => hlb (max_le_iff.mpr hi)⟩
  · intro s reqs hgt
    unfold ChunkedAllocWithRoot.alloc
    rw [if_pos (by omega)]

/-- Closed instance of the class-selection law at the concrete 17-byte
request: class 1 (block size 32) meets both constraints. -/
theorem chunked_class_selection_witness :
    17 ≤ chunkedDemo.chunked.block_size 1 ∧ 1 ≤ chunkedDemo.chunked.block_size 1 :=
  (chunked_class_selection.1 chunkedDemo.chunked 4 ⟨17, 1, 1⟩
    (by decide) (by decide) (by decide) (by decide)).1

/-- C7: for each allocator of the hierarchy, `dispose` returns the allocator
back unchanged exactly while `is_used()` holds, and succeeds once everything
allocated from it has been freed (`is_used()` false); for the combined and
smart allocators the success result is stated for every non-panicking
teardown (`some r`). -/
theorem dispose_exactly_when_unused :
    (∀ s : RootAllocator, (s.is_used = true → s.dispose = .error s) ∧
        (s.is_used = false → s.dispose = .ok ())) ∧
    (∀ s : ArenaWithRoot, (s.arena.is_used = true → s.dispose = .error s.arena) ∧
        (s.arena.is_used = false → ∃ r, s.dispose = .ok r)) ∧
    (∀ s : ChunkedAllocWithRoot,
        (s.chunked.is_used = true → s.dispose = .error s.chunked) ∧
        (s.chunked.is_used = false → ∃ r, s.dispose = .ok r)) ∧
    (∀ c : CombinedAllocator, (c.is_used = true → c.dispose = some (.error c)) ∧
        (∀ r, c.dispose = some r → c.is_used = false → r = .ok ())) ∧
    (∀ (A : Type) (s : GenericSmartAllocator A) (isUsedA disposeOkA : A → Bool),
        (s.is_used isUsedA = true →
          s.dispose isUsedA disposeOkA = some (.error s)) ∧
        (∀ r, s.dispose isUsedA disposeOkA = some r →
          s.is_used isUsedA = false → r = .ok ())) := by
  refine ⟨?_, ?_, ?_, ?_, ?_⟩
  · intro s
    unfold RootAllocator.dispose
    constructor <;> intro h <;> simp [h]
  · intro s
    unfold ArenaWithRoot.dispose
    constructor
    · intro h; simp [h]
    · intro h
      rw [if_neg (by simp [h])]
      cases s.arena.hot <;> exact ⟨_, rfl⟩
  · intro s
    unfold ChunkedAllocWithRoot.dispose
    constructor
    · intro h; simp [h]
    · intro h
      rw [if_neg (by simp [h])]
      exact ⟨_, rfl⟩
  · intro c
    unfold CombinedAllocator.dispose
    constructor
    · intro h; simp [h]
    · intro r hr hu
      rw [if_neg (by simp [hu])] at hr
      cases h₁ : ArenaWithRoot.dispose ⟨c.root, c.arenas, c.next_mem⟩ <;>
        rw [h₁] at hr <;> dsimp only at hr
      · exact absurd hr (by simp)
      · next root₁ =>
        cases h₂ : ChunkedAllocWithRoot.dispose ⟨root₁, c.chunks, c.next_mem⟩ <;>
          rw [h₂] at hr <;> dsimp only at hr
        · exact absurd hr (by simp)
        · next root₂ =>
          cases h₃ : root₂.dispose <;> rw [h₃] at hr <;> dsimp only at hr
          · exact absurd hr (by simp)
          · simp_all
  · intro A s isUsedA disposeOkA
    unfold GenericSmartAllocator.dispose
    constructor
    · intro h; simp [h]
    · intro r hr hu
      rw [if_neg (by simp [hu])] at hr
      by_cases hall : s.allocators.all (fun e => disposeOkA e.2) = true
      · rw [if_pos hall] at hr; simp_all
      · rw [if_neg hall] at hr; simp_all

/-- Closed instances of the dispose discipline: a root with 5 outstanding
bytes is handed back, a root with none disposes, the fresh demo arena,
chunked and combined allocators dispose cleanly, and a combined allocator
with one live allocation is handed back. -/
theorem dispose_exactly_when_unused_witness :
    RootAllocator.dispose ⟨0, 5⟩ = .error ⟨0, 5⟩ ∧
    RootAllocator.dispose ⟨0, 0⟩ = .ok () ∧
    (∃ r, arenaDemo.dispose = .ok r) ∧
    (∃ r, chunkedDemo.dispose = .ok r) ∧
    CombinedAllocator.dispose { combinedDemo with allocations := 1 } =
      some (.error { combinedDemo with allocations := 1 }) ∧
    (∀ r, combinedDemo.dispose = some r → r = .ok ()) :=
  ⟨(dispose_exactly_when_unused.1 ⟨0, 5⟩).1 (by decide),
   (dispose_exactly_when_unused.1 ⟨0, 0⟩).2 (by decide),
   (dispose_exactly_when_unused.2.1 arenaDemo).2 (by decide),
   (dispose_exactly_when_unused.2.2.1 chunkedDemo).2 (by decide),
   (dispose_exactly_when_unused.2.2.2.1 { combinedDemo with allocations := 1 }).1
     (by decide),
   fun r hr =>
     (dispose_exactly_when_unused.2.2.2.1 combinedDemo).2 r hr (by decide)⟩

/-- Bit test bridge: covering the single-bit mask `1 << k` is the same as a
non-zero intersection with it. -/
theorem maskCovers_iff (m k : Nat) : maskCovers m k = true ↔ 2 ^ k &&& m ≠ 0 := by
  unfold maskCovers
  rw [Nat.and_comm, Nat.and_two_pow]
  cases h : m.testBit k <;>
    simp [h, (Nat.pos_pow_of_pos k two_pos).ne, (Nat.pos_pow_of_pos k two_pos).ne']

/-- The `compatible` flag computed by the selection scan ends up true exactly
when it started true or some scanned index passes the compatibility filter. -/
theorem smartScanAux_fst {A : Type} [Inhabited A] (s : GenericSmartAllocator A)
    (prop : Nat) (reqs : Requirements) :
    ∀ (l : List Nat) (compat : Bool) (cand : Option (Nat × ℚ)),
      (smartScanAux s prop reqs l compat cand).1 =
        (compat || l.any fun k => compatibleB s prop reqs k) := by
  intro l
  induction l with
  | nil => intro compat cand; simp [smartScanAux]
  | cons a l ih =>
      intro compat cand
      unfold smartScanAux
      by_cases hc : compatibleB s prop reqs a = true
      · rw [if_pos hc]
        by_cases hav : (heapAt s a).available < reqs.size + reqs.alignment
        · rw [if_pos hav, ih]; simp [hc]
        · rw [if_neg hav, ih]; simp [hc]
      · rw [if_neg hc, ih]
        simp only [Bool.not_eq_true] at hc
        simp [List.any_cons, hc]

/-- The candidate computed by the selection scan is the fold of the candidate
update over the surviving indices, in scan order. -/
theorem smartScanAux_snd {A : Type} [Inhabited A] (s : GenericSmartAllocator A)
    (prop : Nat) (reqs : Requirements) :
    ∀ (l : List Nat) (compat : Bool) (cand : Option (Nat × ℚ)),
      (smartScanAux s prop reqs l compat cand).2 =
        (l.filter fun k => survivorB s prop reqs k).foldl (scanStep s) cand := by
  intro l
  induction l with
  | nil => intro compat cand; simp [smartScanAux]
  | cons a l ih =>
      intro compat cand
      unfold smartScanAux
      by_cases hc : compatibleB s prop reqs a = true
      · rw [if_pos hc]
        by_cases hav : (heapAt s a).available < reqs.size + reqs.alignment
        · rw [if_pos hav, ih]
          have hs : survivorB s prop reqs a = false := by
            simp only [survivorB, hc, Bool.true_and, decide_eq_false_iff_not]
            omega
          simp [hs]
        · rw [if_neg hav, ih]
          have hs : survivorB s prop reqs a = true := by
            simp only [survivorB, hc, Bool.true_and, decide_eq_true_eq]
            omega
          simp [hs]
      · rw [if_neg hc, ih]
        simp only [Bool.not_eq_true] at hc
        have hs : survivorB s prop reqs a = false := by
          simp [survivorB, hc]
        simp [hs]

/-- Argmin property of the candidate fold: starting from a candidate
`(c₀, usage c₀)` with `c₀` below every index still to scan, the fold returns
the index of minimal usage, ties resolved towards the earliest index. -/
theorem foldl_scanStep_spec {A : Type} [Inhabited A] (s : GenericSmartAllocator A) :
    ∀ (l : List Nat) (c₀ : Nat), (∀ k ∈ l, c₀ < k) → l.Pairwise (· < ·) →
      ∃ c, l.foldl (scanStep s) (some (c₀, usageAt s c₀)) = some (c, usageAt s c) ∧
        (c = c₀ ∨ c ∈ l) ∧ usageAt s c ≤ usageAt s c₀ ∧
        (∀ k ∈ l, usageAt s c ≤ usageAt s k) ∧
        (usageAt s c = usageAt s c₀ → c = c₀) ∧
        (∀ k ∈ l, usageAt s c = usageAt s k → c ≤ k) := by
  intro l
  induction l with
  | nil =>
      intro c₀ _ _
      exact ⟨c₀, rfl, Or.inl rfl, le_rfl, by simp, fun _ => rfl, by simp⟩
  | cons a l ih =>
      intro c₀ hlt hp
      obtain ⟨ha, hp'⟩ := List.pairwise_cons.mp hp
      rw [List.foldl_cons]
      by_cases hcmp : usageAt s c₀ > usageAt s a
      · rw [show scanStep s (some (c₀, usageAt s c₀)) a = some (a, usageAt s a) from by
          simp [scanStep, hcmp]]
        obtain ⟨c, hc, hmemc, hlea, hall, htie0, htie⟩ := ih a ha hp'
        refine ⟨c, hc, ?_, ?_, ?_, ?_, ?_⟩
        · rcases hmemc with rfl | hm
          · exact Or.inr (List.mem_cons_self _ _)
          · exact Or.inr (List.mem_cons_of_mem _ hm)
        · exact le_of_lt (lt_of_le_of_lt hlea hcmp)
        · intro k hk
          rcases List.mem_cons.mp hk with rfl | hk'
          · exact hlea
          · exact hall k hk'
        · intro he
          exact absurd (he ▸ lt_of_le_of_lt hlea hcmp) (lt_irrefl _)
        · intro k hk he
          rcases List.mem_cons.mp hk with rfl | hk'
          · exact le_of_eq (htie0 he)
          · exact htie k hk' he
      · rw [show scanStep s (some (c₀, usageAt s c₀)) a = some (c₀, usageAt s c₀) from by
          simp [scanStep, hcmp]]
        have hc₀a : usageAt s c₀ ≤ usageAt s a := not_lt.mp hcmp
        obtain ⟨c, hc, hmemc, hlec, hall, htie0, htie⟩ :=
          ih c₀ (fun k hk => hlt k (List.mem_cons_of_mem _ hk)) hp'
        refine ⟨c, hc, ?_, hlec, ?_, htie0, ?_⟩
        · rcases hmemc with rfl | hm
          · exact Or.inl rfl
          · exact Or.inr (List.mem_cons_of_mem _ hm)
        · intro k hk
          rcases List.mem_cons.mp hk with rfl | hk'
          · exact le_trans hlec hc₀a
          · exact hall k hk'
        · intro k hk he
          rcases List.mem_cons.mp hk with rfl | hk'
          · have h1 : usageAt s c = usageAt s c₀ :=
              le_antisymm hlec (he ▸ hc₀a)
            exact le_of_lt (htie0 h1 ▸ hlt k (List.mem_cons_self _ _))
          · exact htie k hk' he

/-- Any candidate produced by the whole selection scan is a surviving index
realising the minimum heap usage among survivors, ties broken towards the
lowest index. -/
theorem smartScan_candidate_spec {A : Type} [Inhabited A]
    (s : GenericSmartAllocator A) (prop : Nat) (reqs : Requirements) :
    ∀ chosen u, (smartScan s prop reqs).2 = some (chosen, u) →
      u = usageAt s chosen ∧ chosen < s.allocators.length ∧
      survivorB s prop reqs chosen = true ∧
      (∀ k < s.allocators.length, survivorB s prop reqs k = true →
        usageAt s chosen ≤ usageAt s k) ∧
      (∀ k < s.allocators.length, survivorB s prop reqs k = true →
        usageAt s chosen = usageAt s k → chosen ≤ k) := by
  intro chosen u h
  unfold smartScan at h
  rw [smartScanAux_snd] at h
  have hpl : ((List.range s.allocators.length).filter
      (fun k => survivorB s prop reqs k)).Pairwise (· < ·) :=
    (List.pairwise_lt_range _).filter _
  have hmem : ∀ k ∈ (List.range s.allocators.length).filter
      (fun k => survivorB s prop reqs k),
      k < s.allocators.length ∧ survivorB s prop reqs k = true := by
    intro k hk
    exact ⟨List.mem_range.mp (List.mem_of_mem_filter hk),
      by simpa using List.of_mem_filter hk⟩
  have hcov : ∀ k < s.allocators.length, survivorB s prop reqs k = true →
      k ∈ (List.range s.allocators.length).filter
        (fun k => survivorB s prop reqs k) := by
    intro k hk hs
    exact List.mem_filter.mpr ⟨List.mem_range.mpr hk, by simpa using hs⟩
  cases hl : (List.range s.allocators.length).filter
      (fun k => survivorB s prop reqs k) with
  | nil => rw [hl] at h; simp at h
  | cons a rest =>
      rw [hl] at h
      rw [List.foldl_cons,
        show scanStep s none a = some (a, usageAt s a) from rfl] at h
      rw [hl] at hpl hmem hcov
      obtain ⟨hra, hp'⟩ := List.pairwise_cons.mp hpl
      obtain ⟨c, hc, hmemc, hlea, hall, htie0, htie⟩ :=
        foldl_scanStep_spec s rest a hra hp'
      rw [hc] at h
      have hcu : c = chosen ∧ usageAt s c = u := by
        constructor
        · exact congrArg (fun o => (Option.getD o (0, 0)).1) h
        · exact congrArg (fun o => (Option.getD o (0, 0)).2) h
      obtain ⟨rfl, rfl⟩ := hcu
      have hcl' : c = a ∨ c ∈ rest := hmemc
      have hcmem : c ∈ a :: rest := by
        rcases hcl' with rfl | hm
        · exact List.mem_cons_self _ _
        · exact List.mem_cons_of_mem _ hm
      obtain ⟨hclen, hcsurv⟩ := hmem c hcmem
      refine ⟨rfl, hclen, hcsurv, ?_, ?_⟩
      · intro k hk hks
        rcases List.mem_cons.mp (hcov k hk hks) with rfl | hk'
        · exact hlea
        · exact hall k hk'
      · intro k hk hks he
        rcases List.mem_cons.mp (hcov k hk hks) with rfl | hk'
        · rcases hcl' with rfl | hm
          · exact le_rfl
          · exact le_of_lt (htie0 (le_antisymm hlea (he ▸ le_rfl) ▸ rfl) ▸ hra c hm)
        · exact htie k hk' he

/-- Folding the candidate update from a set candidate never loses it. -/
theorem foldl_scanStep_isSome {A : Type} [Inhabited A]
    (s : GenericSmartAllocator A) :
    ∀ (l : List Nat) (p : Nat × ℚ), ∃ q, l.foldl (scanStep s) (some p) = some q := by
  intro l
  induction l with
  | nil => intro p; exact ⟨p, rfl⟩
  | cons a rest ih =>
      intro p
      obtain ⟨c, u⟩ := p
      rw [List.foldl_cons]
      by_cases h : u > usageAt s a
      · rw [show scanStep s (some (c, u)) a = some (a, usageAt s a) from by
          simp [scanStep, h]]
        exact ih _
      · rw [show scanStep s (some (c, u)) a = some (c, u) from by
          simp [scanStep, h]]
        exact ih _

/-- The scan yields no candidate exactly when no index survives. -/
theorem foldl_scanStep_none {A : Type} [Inhabited A]
    (s : GenericSmartAllocator A) :
    ∀ l : List Nat, l.foldl (scanStep s) none = none ↔ l = [] := by
  intro l
  cases l with
  | nil => simp
  | cons a rest =>
      simp only [List.foldl_cons,
        show scanStep s none a = some (a, usageAt s a) from rfl]
      constructor
      · intro h
        obtain ⟨q, hq⟩ := foldl_scanStep_isSome s rest (a, usageAt s a)
        rw [hq] at h
        exact absurd h (by simp)
      · intro h
        exact absurd h (by simp)

/-- C4: `GenericSmartAllocator::alloc` fails with `NoCompatibleMemoryType`
exactly when no memory-type index `k` has `(1 << k) & type_mask ≠ 0` together
with properties containing the required ones; it fails with `OutOfMemory`
when a compatible type exists but every compatible heap has fewer than
`size + alignment` bytes available, and also when a candidate was selected
but the delegated backing allocation reports `OutOfMemory`.  The hypothesis
`hA` records that the backing allocator never reports
`NoCompatibleMemoryType` (true of the combined hierarchy, whose mask always
covers the chosen type). -/
theorem smart_alloc_error_classification {A : Type} [Inhabited A]
    (s : GenericSmartAllocator A)
    (allocA : A → Requirements → Except MemoryError (A × Nat))
    (prop : Nat) (reqs : Requirements)
    (hA : ∀ a r, allocA a r ≠ .error .noCompatibleMemoryType) :
    (s.alloc allocA prop reqs = .error .noCompatibleMemoryType ↔
      ∀ k < s.allocators.length,
        ¬ (2 ^ k &&& reqs.type_mask ≠ 0 ∧
           propContains (typeAt s k).properties prop = true)) ∧
    ((∃ k, k < s.allocators.length ∧ compatibleB s prop reqs k = true) →
      (∀ k < s.allocators.length, compatibleB s prop reqs k = true →
        (heapAt s k).available < reqs.size + reqs.alignment) →
      s.alloc allocA prop reqs = .error .outOfMemory) ∧
    (∀ chosen u, (smartScan s prop reqs).2 = some (chosen, u) →
      allocA (s.allocators.getD chosen ⟨⟨0, 0⟩, default⟩).2 reqs =
        .error .outOfMemory →
      s.alloc allocA prop reqs = .error .outOfMemory) := by
  have hfst : (smartScan s prop reqs).1 =
      ((List.range s.allocators.length).any fun k => compatibleB s prop reqs k) := by
    unfold smartScan
    rw [smartScanAux_fst]
    simp
  have hsnd : (smartScan s prop reqs).2 =
      ((List.range s.allocators.length).filter
        fun k => survivorB s prop reqs k).foldl (scanStep s) none := by
    unfold smartScan
    rw [smartScanAux_snd]
  refine ⟨⟨?_, ?_⟩, ?_, ?_⟩
  · intro h k hk hcontra
    have hcb : compatibleB s prop reqs k = true := by
      unfold compatibleB
      rw [Bool.and_eq_true]
      exact ⟨(maskCovers_iff _ _).mpr hcontra.1, hcontra.2⟩
    unfold GenericSmartAllocator.alloc at h
    cases hc : (smartScan s prop reqs).2 with
    | some p =>
        rw [hc] at h
        obtain ⟨chosen, u⟩ := p
        dsimp only at h
        unfold smartDelegate at h
        dsimp only at h
        cases ha : allocA (s.allocators.getD chosen ⟨⟨0, 0⟩, default⟩).2 reqs with
        | error e =>
            rw [ha] at h
            dsimp only at h
            have he : e = .noCompatibleMemoryType := by simpa using h
            exact absurd (he ▸ ha) (hA _ _)
        | ok p =>
            rw [ha] at h
            exact absurd h (by simp)
    | none =>
        rw [hc] at h
        have hflag : (smartScan s prop reqs).1 = true := by
          rw [hfst]
          exact List.any_eq_true.mpr ⟨k, List.mem_range.mpr hk, hcb⟩
        rw [hflag] at h
        simp at h
  · intro hno
    have hflag : (smartScan s prop reqs).1 = false := by
      rw [hfst, List.any_eq_false]
      intro k hk
      have hn := hno k (List.mem_range.mp hk)
      intro hcb
      unfold compatibleB at hcb
      rw [Bool.and_eq_true] at hcb
      exact hn ⟨(maskCovers_iff _ _).mp hcb.1, hcb.2⟩
    have hfilter : (List.range s.allocators.length).filter
        (fun k => survivorB s prop reqs k) = [] := by
      rw [List.filter_eq_nil_iff]
      intro k hk
      have hn := hno k (List.mem_range.mp hk)
      intro hsv
      unfold survivorB at hsv
      rw [Bool.and_eq_true] at hsv
      have hcb := hsv.1
      unfold compatibleB at hcb
      rw [Bool.and_eq_true] at hcb
      exact hn ⟨(maskCovers_iff _ _).mp hcb.1, hcb.2⟩
    have hcand : (smartScan s prop reqs).2 = none := by
      rw [hsnd, hfilter]
      rfl
    unfold GenericSmartAllocator.alloc
    rw [hcand, hflag]
    rfl
  · intro hex hall
    obtain ⟨k₀, hk₀, hcb₀⟩ := hex
    have hflag : (smartScan s prop reqs).1 = true := by
      rw [hfst]
      exact List.any_eq_true.mpr ⟨k₀, List.mem_range.mpr hk₀, hcb₀⟩
    have hfilter : (List.range s.allocators.length).filter
        (fun k => survivorB s prop reqs k) = [] := by
      rw [List.filter_eq_nil_iff]
      intro k hk
      intro hsv
      unfold survivorB at hsv
      rw [Bool.and_eq_true, decide_eq_true_eq] at hsv
      exact absurd hsv.2 (not_le.mpr (hall k (List.mem_range.mp hk) hsv.1))
    have hcand : (smartScan s prop reqs).2 = none := by
      rw [hsnd, hfilter]
      rfl
    unfold GenericSmartAllocator.alloc
    rw [hcand, hflag]
    rfl
  · intro chosen u hc ha
    unfold GenericSmartAllocator.alloc
    rw [hc]
    dsimp only
    unfold smartDelegate
    dsimp only
    rw [ha]

/-- Closed instance of the error classification: requiring property bit 1
from `smartDemo` (whose only type has no properties) yields
`NoCompatibleMemoryType`; the backing delegate always succeeds, so the
no-`NoCompatibleMemoryType` hypothesis holds trivially. -/
theorem smart_alloc_error_classification_witness :
    GenericSmartAllocator.alloc smartDemo (fun a _ => .ok (a, 0)) 1 ⟨1, 1, 1⟩ =
      .error .noCompatibleMemoryType :=
  (smart_alloc_error_classification smartDemo (fun a _ => .ok (a, 0)) 1 ⟨1, 1, 1⟩
    (fun _ _ => by simp)).1.mpr (by decide)

/-- C5 amended: when at least one compatible memory type has
`size + alignment` bytes available on its heap, the smart allocator selects,
among those survivors, the type whose heap has the lowest fractional usage
AS COMPUTED IN f32 — `used as f32 / size as f32`, correctly rounded to
binary32 precision by `Heap.usage` — breaking ties, including distinct exact
ratios that collide after f32 rounding, in favour of the lowest memory-type
index, and delegates the allocation to it.  Because of rounding collisions
the chosen type need not have the lowest exact ratio `used/size`. -/
theorem smart_picks_least_used {A : Type} [Inhabited A]
    (s : GenericSmartAllocator A)
    (allocA : A → Requirements → Except MemoryError (A × Nat))
    (prop : Nat) (reqs : Requirements)
    (hsurv : ∃ k, k < s.allocators.length ∧ survivorB s prop reqs k = true) :
    ∃ chosen, (smartScan s prop reqs).2 = some (chosen, usageAt s chosen) ∧
      chosen < s.allocators.length ∧ survivorB s prop reqs chosen = true ∧
      (∀ k < s.allocators.length, survivorB s prop reqs k = true →
        usageAt s chosen ≤ usageAt s k) ∧
      (∀ k < s.allocators.length, survivorB s prop reqs k = true →
        usageAt s chosen = usageAt s k → chosen ≤ k) ∧
      s.alloc allocA prop reqs = smartDelegate s allocA chosen reqs := by
  obtain ⟨k₀, hk₀, hs₀⟩ := hsurv
  have hsnd : (smartScan s prop reqs).2 =
      ((List.range s.allocators.length).filter
        fun k => survivorB s prop reqs k).foldl (scanStep s) none := by
    unfold smartScan
    rw [smartScanAux_snd]
  have hmemk : k₀ ∈ (List.range s.allocators.length).filter
      (fun k => survivorB s prop reqs k) :=
    List.mem_filter.mpr ⟨List.mem_range.mpr hk₀, by simpa using hs₀⟩
  cases hf : (List.range s.allocators.length).filter
      (fun k => survivorB s prop reqs k) with
  | nil => rw [hf] at hmemk; exact absurd hmemk (List.not_mem_nil _)
  | cons a rest =>
      obtain ⟨⟨chosen, u⟩, hq⟩ : ∃ q, (smartScan s prop reqs).2 = some q := by
        rw [hsnd, hf, List.foldl_cons,
          show scanStep s none a = some (a, usageAt s a) from rfl]
        exact foldl_scanStep_isSome s rest _
      obtain ⟨hu, hlen, hsv, hmin, htie⟩ :=
        smartScan_candidate_spec s prop reqs chosen u hq
      subst hu
      refine ⟨chosen, hq, hlen, hsv, hmin, htie, ?_⟩
      unfold GenericSmartAllocator.alloc
      rw [hq]

/-- C5 counterexample: the code does not always delegate to the survivor of
lowest exact fractional usage.  In `smartCollisionDemo` both memory types
survive a `(size 1, align 1)` request and heap 1's exact ratio
`16777216 / 2^25` is strictly below heap 0's `16777217 / 2^25`, but both
round to the f32 value `1/2`, so the scan's strict-greater test never
replaces the earlier candidate and the allocation is delegated to type 0 —
not to the type of lowest exact `used/size`. -/
theorem smart_f32_usage_collision :
    survivorB smartCollisionDemo 0 ⟨1, 1, 3⟩ 0 = true ∧
    survivorB smartCollisionDemo 0 ⟨1, 1, 3⟩ 1 = true ∧
    ((heapAt smartCollisionDemo 1).used : ℚ) / ((heapAt smartCollisionDemo 1).size : ℚ) <
      ((heapAt smartCollisionDemo 0).used : ℚ) / ((heapAt smartCollisionDemo 0).size : ℚ) ∧
    usageAt smartCollisionDemo 0 = usageAt smartCollisionDemo 1 ∧
    (smartScan smartCollisionDemo 0 ⟨1, 1, 3⟩).2 =
      some (0, usageAt smartCollisionDemo 0) ∧
    GenericSmartAllocator.alloc smartCollisionDemo
        (fun a _ => .ok (a, 1)) 0 ⟨1, 1, 3⟩ =
      smartDelegate smartCollisionDemo (fun a _ => .ok (a, 1)) 0 ⟨1, 1, 3⟩ := by
  have hscan : (smartScan smartCollisionDemo 0 ⟨1, 1, 3⟩).2 =
      some (0, usageAt smartCollisionDemo 0) := by decide!
  refine ⟨by decide, by decide, by decide!, by decide!, hscan, ?_⟩
  unfold GenericSmartAllocator.alloc
  rw [hscan]

/-- Closed instance of the least-used selection: `smartTwoDemo` has two
survivors, so the scan produces a candidate. -/
theorem smart_picks_least_used_witness :
    ((smartScan smartTwoDemo 0 ⟨1, 1, 3⟩).2).isSome = true := by
  obtain ⟨c, hc, -⟩ := smart_picks_least_used smartTwoDemo
    (fun a _ => .ok (a, 0)) 0 ⟨1, 1, 3⟩ ⟨0, by decide, by decide⟩
  rw [hc]
  rfl

/-- C9 counterexample: `used_bytes ≤ size_bytes` is NOT preserved by every
alloc.  The availability filter admits the single 40-byte heap for a
`size 33, align 1` request (`40 - 0 ≥ 34`), but the combined backing
allocator rounds the request up to a 64-byte chunked block, and the heap is
credited with the actual block size: `used` becomes 64 on a 40-byte heap. -/
theorem smart_heap_overcommit :
    (smartDemo.heaps.all fun h => decide (h.used ≤ h.size)) = true ∧
    ∃ s' chosen bsize,
      smartDemo.alloc combinedDelegate 0 ⟨33, 1, 1⟩ = .ok (s', chosen, bsize) ∧
      bsize = 64 ∧
      (s'.heaps.getD 0 ⟨0, 0⟩).size = 40 ∧
      (s'.heaps.getD 0 ⟨0, 0⟩).used = 64 ∧
      ¬ (s'.heaps.getD 0 ⟨0, 0⟩).used ≤ (s'.heaps.getD 0 ⟨0, 0⟩).size := by
  refine ⟨by decide, _, _, _, rfl, by decide, by decide, by decide, by decide⟩

/-- C9 amended: every heap starts with `used = 0 ≤ size` at construction;
`used ≤ size` is preserved by `free`, and by any `alloc` whose delegated
block size does not exceed `reqs.size + reqs.alignment` (the quantity checked
by the availability filter).  An alloc that produces a larger block (as the
chunked sub-allocator's power-of-two rounding can) may break the bound. -/
theorem smart_heap_invariant (A : Type) [Inhabited A] :
    (∀ (memory_types : List MemoryType) (memory_heaps : List Nat)
        (new_allocator : Nat → A),
      ∀ h ∈ (GenericSmartAllocator.new (A := A) memory_types memory_heaps
          new_allocator).heaps, h.used ≤ h.size) ∧
    (∀ (s : GenericSmartAllocator A)
        (allocA : A → Requirements → Except MemoryError (A × Nat))
        (prop : Nat) (reqs : Requirements)
        (s' : GenericSmartAllocator A) (chosen bsize : Nat),
      (∀ h ∈ s.heaps, h.used ≤ h.size) →
      s.alloc allocA prop reqs = .ok (s', chosen, bsize) →
      bsize ≤ reqs.size + reqs.alignment →
      ∀ h ∈ s'.heaps, h.used ≤ h.size) ∧
    (∀ (s : GenericSmartAllocator A) (freeA : A → Nat → A) (index bsize : Nat),
      (∀ h ∈ s.heaps, h.used ≤ h.size) →
      ∀ h ∈ (s.free freeA index bsize).heaps, h.used ≤ h.size) := by
  have getD_bound : ∀ (heaps : List Heap) (n : Nat),
      (∀ h ∈ heaps, h.used ≤ h.size) →
      (heaps.getD n ⟨0, 0⟩).used ≤ (heaps.getD n ⟨0, 0⟩).size := by
    intro heaps n hinv
    by_cases hb : n < heaps.length
    · rw [List.getD_eq_getElem heaps _ hb]
      exact hinv _ (List.getElem_mem hb)
    · rw [List.getD_eq_default heaps _ (not_lt.mp hb)]
  refine ⟨?_, ?_, ?_⟩
  · intro memory_types memory_heaps new_allocator h hmem
    unfold GenericSmartAllocator.new at hmem
    simp only [List.mem_map] at hmem
    obtain ⟨sz, -, rfl⟩ := hmem
    exact Nat.zero_le _
  · intro s allocA prop reqs s' chosen bsize hinv halloc hbs h hmem
    unfold GenericSmartAllocator.alloc at halloc
    cases hc : (smartScan s prop reqs).2 with
    | none => rw [hc] at halloc; simp at halloc
    | some p =>
        rw [hc] at halloc
        obtain ⟨chosen', u⟩ := p
        dsimp only at halloc
        unfold smartDelegate at halloc
        dsimp only at halloc
        cases ha : allocA (s.allocators.getD chosen' ⟨⟨0, 0⟩, default⟩).2 reqs with
        | error e => rw [ha] at halloc; simp at halloc
        | ok q =>
            rw [ha] at halloc
            obtain ⟨a', bs⟩ := q
            dsimp only at halloc
            simp only [Except.ok.injEq, Prod.mk.injEq] at halloc
            obtain ⟨hs', hch, hbsz⟩ := halloc
            subst hs'
            subst hch
            subst hbsz
            dsimp only at hmem
            rcases List.mem_or_eq_of_mem_set hmem with hold | hnew
            · exact hinv h hold
            · -- the credited heap: availability of the survivor bounds it
              obtain ⟨-, -, hsv, -, -⟩ :=
                smartScan_candidate_spec s prop reqs chosen' u hc
              unfold survivorB at hsv
              rw [Bool.and_eq_true, decide_eq_true_eq] at hsv
              have havail := hsv.2
              unfold heapAt typeAt at havail
              have hb := getD_bound s.heaps
                (s.allocators.getD chosen' ⟨⟨0, 0⟩, default⟩).1.heap_index hinv
              subst hnew
              unfold Heap.alloc Heap.available at *
              dsimp only at *
              omega
  · intro s freeA index bsize hinv h hmem
    unfold GenericSmartAllocator.free at hmem
    dsimp only at hmem
    rcases List.mem_or_eq_of_mem_set hmem with hold | hnew
    · exact hinv h hold
    · have hb := getD_bound s.heaps
        (s.allocators.getD index ⟨⟨0, 0⟩, default⟩).1.heap_index hinv
      subst hnew
      unfold Heap.free
      dsimp only
      omega

/-- Closed instance of the preservation law: a delegate answering with a
block of exactly the requested size keeps `used ≤ size` on the demo heap. -/
theorem smart_heap_invariant_witness :
    Heap.used ⟨40, 33⟩ ≤ Heap.size ⟨40, 33⟩ :=
  (smart_heap_invariant CombinedAllocator).2.1 smartDemo
    (fun a _ => .ok (a, 33)) 0 ⟨33, 1, 1⟩
    ⟨[(⟨0, 0⟩, combinedDemo)], [⟨40, 33⟩]⟩ 0 33
    (by decide) rfl (by decide) ⟨40, 33⟩ (by decide)

/-- Shape of every block handed out by a chunked node: it spans exactly one
slot, `[bi * block_size, bi * block_size + block_size)`, relative to a chunk
starting at offset 0. -/
theorem chunkedWithRoot_alloc_shape (t : ChunkedWithRoot) (reqs : Requirements)
    (hch : ∀ ch ∈ t.node.chunks, ch.start = 0)
    (t' : ChunkedWithRoot) (b : ChunkedBlock)
    (h : t.alloc reqs = .ok (t', b)) :
    ∃ bi, b.raw.start = bi * t.node.block_size ∧
      b.raw.stop = t.node.block_size + b.raw.start := by
  have chunk_start : ∀ (chunks : List RawBlock) (n : Nat),
      (∀ ch ∈ chunks, ch.start = 0) → (chunks.getD n ⟨0, 0, 0⟩).start = 0 := by
    intro chunks n hc
    by_cases hb : n < chunks.length
    · rw [List.getD_eq_getElem chunks _ hb]
      exact hc _ (List.getElem_mem hb)
    · rw [List.getD_eq_default chunks _ (not_lt.mp hb)]
  unfold ChunkedWithRoot.alloc at h
  by_cases hm : 2 ^ t.node.id &&& reqs.type_mask = 0
  · rw [if_pos hm] at h
    simp at h
  · rw [if_neg hm] at h
    cases hng : t.node.alloc_no_grow with
    | some p =>
        rw [hng] at h
        obtain ⟨node', blk⟩ := p
        dsimp only at h
        simp only [Except.ok.injEq, Prod.mk.injEq] at h
        obtain ⟨-, hb⟩ := h
        subst hb
        unfold ChunkedNode.alloc_no_grow at hng
        cases hfree : t.node.free with
        | nil => rw [hfree] at hng; simp at hng
        | cons fb rest =>
            rw [hfree] at hng
            simp only [Option.some.injEq, Prod.mk.injEq] at hng
            obtain ⟨-, hblk⟩ := hng
            subst hblk
            refine ⟨fb.block_index, ?_, ?_⟩
            · dsimp only
              rw [chunk_start t.node.chunks fb.chunk_index hch]
              omega
            · dsimp only
    | none =>
        rw [hng] at h
        have hfree : t.node.free = [] := by
          unfold ChunkedNode.alloc_no_grow at hng
          cases hf : t.node.free with
          | nil => rfl
          | cons fb rest => rw [hf] at hng; simp at hng
        cases hg : t.grow with
        | error e => rw [hg] at h; simp at h
        | ok t₁ =>
            rw [hg] at h
            dsimp only at h
            unfold ChunkedWithRoot.grow at hg
            dsimp only [RootAllocator.alloc, counterDevice] at hg
            simp only [Except.ok.injEq] at hg
            subst hg
            cases hng₁ : ChunkedNode.alloc_no_grow
                { t.node with
                    free := t.node.free ++
                      (List.range t.node.blocks_per_chunk).map
                        (fun i => ⟨t.node.chunks.length, i⟩)
                    chunks := t.node.chunks ++
                      [⟨t.next_mem, 0, t.node.chunk_size⟩] } with
            | none => rw [hng₁] at h; simp at h
            | some p =>
                rw [hng₁] at h
                obtain ⟨node₂, blk⟩ := p
                dsimp only at h
                simp only [Except.ok.injEq, Prod.mk.injEq] at h
                obtain ⟨-, hb⟩ := h
                subst hb
                unfold ChunkedNode.alloc_no_grow at hng₁
                rw [hfree] at hng₁
                dsimp only at hng₁
                cases hbpc : t.node.blocks_per_chunk with
                | zero => rw [hbpc] at hng₁; simp at hng₁
                | succ k =>
                    rw [hbpc, List.range_succ_eq_map] at hng₁
                    simp only [List.nil_append, List.map_cons,
                      Option.some.injEq, Prod.mk.injEq] at hng₁
                    obtain ⟨-, hblk⟩ := hng₁
                    subst hblk
                    have hcs : ((t.node.chunks ++
                        [(⟨t.next_mem, 0, t.node.chunk_size⟩ : RawBlock)]).getD
                          t.node.chunks.length ⟨0, 0, 0⟩).start = 0 := by
                      apply chunk_start
                      intro ch hc
                      rcases List.mem_append.mp hc with hc | hc
                      · exact hch ch hc
                      · simp only [List.mem_singleton] at hc
                        subst hc
                        rfl
                    refine ⟨0, ?_, ?_⟩
                    · dsimp only
                      rw [hcs]
                      omega
                    · dsimp only

/-- After `grow index`, the node at `index` carries the class block size
`block_size index` and only zero-based chunks (fresh nodes have none). -/
theorem grow_node_spec (c : ChunkedAllocator) (index : Nat)
    (hbs : ∀ i (hlt : i < c.nodes.length),
      (c.nodes.get ⟨i, hlt⟩).block_size = c.block_size i)
    (hch : ∀ nd ∈ c.nodes, ∀ ch ∈ nd.chunks, ch.start = 0) :
    ((c.grow index).nodes.getD index ⟨(c.grow index).id, 0, 0, [], []⟩).block_size =
      c.block_size index ∧
    ∀ ch ∈ ((c.grow index).nodes.getD index
        ⟨(c.grow index).id, 0, 0, [], []⟩).chunks,
      ch.start = 0 := by
  unfold ChunkedAllocator.grow
  dsimp only
  have hlen : (c.nodes ++ ((List.range (index + 1)).drop c.nodes.length).map
      (fun i => (⟨c.id, c.chunk_size i, c.block_size i, [], []⟩ : ChunkedNode))).length
      = max c.nodes.length (index + 1) := by
    simp only [List.length_append, List.length_map, List.length_drop,
      List.length_range]
    omega
  have hlt : index < (c.nodes ++ ((List.range (index + 1)).drop c.nodes.length).map
      (fun i => (⟨c.id, c.chunk_size i, c.block_size i, [], []⟩ : ChunkedNode))).length := by
    rw [hlen]
    omega
  rw [List.getD_eq_getElem _ _ hlt]
  by_cases hidx : index < c.nodes.length
  · rw [List.getElem_append_left hidx]
    constructor
    · exact hbs index hidx
    · intro ch hc
      exact hch _ (List.getElem_mem hidx) ch hc
  · push_neg at hidx
    rw [List.getElem_append_right hidx]
    have hdrop : index - c.nodes.length <
        ((List.range (index + 1)).drop c.nodes.length).length := by
      simp only [List.length_drop, List.length_range]
      omega
    rw [List.getElem_map, List.getElem_drop, List.getElem_range,
      Nat.add_sub_cancel' hidx]
    exact ⟨rfl, by simp⟩

/-- Chunked blocks satisfy the spec's alignment property: with power-of-two
`min_block_size` and request alignment, and with every node carrying its
class block size over zero-based chunks (the invariant `grow` establishes),
every successful `ChunkedAllocator::alloc` returns a block with
`start % alignment = 0` and `size ≥ reqs.size` — in contrast with the arena
allocator, which violates the alignment half. -/
theorem chunked_alloc_aligned (s : ChunkedAllocWithRoot) (reqs : Requirements)
    (a e : Nat) (hmin : s.chunked.min_block_size = 2 ^ a)
    (halign : reqs.alignment = 2 ^ e)
    (hbs : ∀ i (hlt : i < s.chunked.nodes.length),
      (s.chunked.nodes.get ⟨i, hlt⟩).block_size = s.chunked.block_size i)
    (hch : ∀ nd ∈ s.chunked.nodes, ∀ ch ∈ nd.chunks, ch.start = 0)
    (s' : ChunkedAllocWithRoot) (b : ChunkedBlock)
    (h : s.alloc reqs = .ok (s', b)) :
    b.raw.start % reqs.alignment = 0 ∧ reqs.size ≤ b.raw.size := by
  unfold ChunkedAllocWithRoot.alloc at h
  by_cases hover : max reqs.size reqs.alignment > s.chunked.max_chunk_size
  · rw [if_pos hover] at h
    simp at h
  · rw [if_neg hover] at h
    dsimp only at h
    obtain ⟨hnbs, hnch⟩ := grow_node_spec s.chunked
      (s.chunked.pick_node (max reqs.size reqs.alignment)) hbs hch
    split at h
    · exact absurd h (by simp)
    · next sub blk heq =>
        simp only [Except.ok.injEq, Prod.mk.injEq] at h
        obtain ⟨-, hb⟩ := h
        subst hb
        obtain ⟨bi, hstart, hstop⟩ :=
          chunkedWithRoot_alloc_shape _ reqs hnch _ _ heq
        dsimp only at hstart hstop hnbs
        rw [hnbs] at hstart hstop
        have hm : 0 < max reqs.size reqs.alignment :=
          lt_of_lt_of_le (halign ▸ Nat.pos_pow_of_pos e two_pos)
            (le_max_right _ _)
        have hmem :=
          (pick_node_isLeast s.chunked a (max reqs.size reqs.alignment) hmin hm).1
    -- `hmem : max size align ≤ block_size pick`
        have hbs_pow : s.chunked.block_size
            (s.chunked.pick_node (max reqs.size reqs.alignment)) =
            2 ^ (a + s.chunked.pick_node (max reqs.size reqs.alignment)) := by
          unfold ChunkedAllocator.block_size
          rw [hmin, pow_add]
        constructor
        · rw [hstart]
          have hle2 : (2 : Nat) ^ e ≤
              2 ^ (a + s.chunked.pick_node (max reqs.size reqs.alignment)) := by
            rw [← hbs_pow, ← halign]
            exact le_trans (le_max_right _ _) hmem
          have hdvd : reqs.alignment ∣ bi * s.chunked.block_size
              (s.chunked.pick_node (max reqs.size reqs.alignment)) := by
            apply Dvd.dvd.mul_left
            rw [hbs_pow]
            conv_lhs => rw [halign]
            exact pow_dvd_pow 2 ((Nat.pow_le_pow_iff_right (by omega)).mp hle2)
          exact Nat.mod_eq_zero_of_dvd hdvd
        · have : reqs.size ≤ s.chunked.block_size
              (s.chunked.pick_node (max reqs.size reqs.alignment)) :=
            le_trans (le_max_left _ _) hmem
          unfold RawBlock.size
          omega

end GfxMem
